import Mathlib

/-!
# go-middleware: Lean model of `main.go`

A shallow embedding of the HTTP middleware chain
`LoggingMiddleware(AuthMiddleware(RateLimitMiddleware(HelloHandler)))`.

* Go strings are modelled by Lean `String` (sequences of Unicode scalar values);
  the helpers of package `strings` work on the character list.
* `time.Time` is the monotonic clock reading in nanoseconds (`Int`), a
  `time.Duration` is a saturated 64-bit nanosecond count.
* The package-level variables (`rateLimitStore`, the clock, the process output)
  are the fields of `World`; a handler is a function on a response writer, a
  request and a world.
-/

namespace GoMiddleware

/-! ## Package `strings` -/

/-- Go `unicode.IsSpace`: the Latin-1 spaces `\t \n \v \f \r`, space, U+0085, U+00A0,
and the code points with the Unicode White_Space property. -/
def isSpace (c : Char) : Bool :=
  let n := c.toNat
  (9 ≤ n && n ≤ 13) || n == 32 || n == 133 || n == 160 || n == 5760 ||
  (8192 ≤ n && n ≤ 8202) || n == 8232 || n == 8233 || n == 8239 || n == 8287 ||
  n == 12288

/-- Character-list core of `strings.Split` for a one-character separator: the
pieces between consecutive occurrences of `sep` (always at least one piece). -/
def splitChars (sep : Char) : List Char → List (List Char)
  | [] => [[]]
  | c :: cs =>
    if c = sep then [] :: splitChars sep cs
    else
      match splitChars sep cs with
      | [] => [[c]]
      | p :: ps => (c :: p) :: ps

/-- Go `strings.Split(s, sep)` for the one-character separators the program
uses (`","` and `":"`). -/
def Split (s : String) (sep : Char) : List String :=
  (splitChars sep s.data).map String.mk

/-- Character-list core of `strings.TrimSpace`. -/
def trimChars (cs : List Char) : List Char :=
  ((cs.dropWhile isSpace).reverse.dropWhile isSpace).reverse

/-- Go `strings.TrimSpace`: drops leading and trailing white space. -/
def TrimSpace (s : String) : String :=
  String.mk (trimChars s.data)

/-! ## Package `net/textproto`: header keys -/

/-- Go `validHeaderFieldByte`: the token characters of RFC 7230, that is the
letters, the digits and the fifteen punctuation marks allowed in a token,
given here by their code points. -/
def validHeaderFieldByte (c : Char) : Bool :=
  let n := c.toNat
  n == 33 || (35 ≤ n && n ≤ 39) || n == 42 || n == 43 || n == 45 || n == 46 ||
  (48 ≤ n && n ≤ 57) || (65 ≤ n && n ≤ 90) || (94 ≤ n && n ≤ 122) ||
  n == 124 || n == 126

/-- The canonicalising loop of Go `canonicalMIMEHeaderKey`: upper case for the
first letter and for a letter after `-`, lower case elsewhere. -/
def canonLoop : Bool → List Char → List Char
  | _, [] => []
  | upper, c :: cs =>
    let c1 :=
      if upper && decide (97 ≤ c.toNat ∧ c.toNat ≤ 122) then Char.ofNat (c.toNat - 32)
      else if !upper && decide (65 ≤ c.toNat ∧ c.toNat ≤ 90) then Char.ofNat (c.toNat + 32)
      else c
    c1 :: canonLoop (c1 == '-') cs

/-- Go `textproto.CanonicalMIMEHeaderKey`: a key holding a byte that is not a
token character (a space included) is returned unchanged, any other key is
canonicalised. -/
def CanonicalMIMEHeaderKey (s : String) : String :=
  if s.data.all validHeaderFieldByte then String.mk (canonLoop true s.data) else s

/-- Go `http.Header`, a `map[string][]string`; an absent key maps to the empty slice. -/
abbrev Header := String → List String

/-- Go `Header.Get`: the first value stored under the canonical form of `key`,
`""` when there is none. -/
def Header.Get (h : Header) (key : String) : String :=
  match h (CanonicalMIMEHeaderKey key) with
  | [] => ""
  | v :: _ => v

/-! ## Requests and client identity -/

/-- The fields of `*http.Request` the program reads. -/
structure Request where
  Method : String
  Path : String
  Header : Header
  RemoteAddr : String

/-- The `for _, p := range parts` loop of `getRealIp`: the first element that is
non-empty after `strings.TrimSpace`, if any. -/
def firstNonEmpty : List String → Option String
  | [] => none
  | p :: ps =>
    let p1 := TrimSpace p
    if p1 ≠ "" then some p1 else firstNonEmpty ps

/-- Source `getRealIp`. The result `none` stands for the run-time panic of the
index expression `strings.Split(r.RemoteAddr, ":")[0]` on an empty slice. -/
def getRealIp (r : Request) : Option String :=
  let ip := r.Header.Get "X-Real-Ip"
  if ip ≠ "" then some ip
  else
    let ip := r.Header.Get "X-Forwarded-For"
    let fallback := (Split r.RemoteAddr ':')[0]?
    if ip ≠ "" then
      match firstNonEmpty (Split ip ',') with
      | some p => some p
      | none => fallback
    else fallback

/-! ## Package `time` -/

/-- Go `time.Second`, in nanoseconds. -/
def Second : Int := 1000000000

/-- The saturation of Go duration arithmetic: `time.Duration` is an `int64`, and
`Time.Sub` returns the largest or smallest duration instead of overflowing. -/
def saturate (d : Int) : Int :=
  if d < -9223372036854775808 then -9223372036854775808
  else if 9223372036854775807 < d then 9223372036854775807
  else d

/-! ## The process state -/

/-- One record written to the process output. -/
inductive Output where
  /-- A line of `fmt.Println`, its operands joined by a space. -/
  | stdout (line : String)
  /-- The record of `log.Printf("Started %s %s", method, path)`. -/
  | logStarted (method path : String)
  /-- The record of `log.Printf("Completed in %v", duration)`. -/
  | logCompleted (duration : Int)
  deriving DecidableEq, Repr

/-- The package-level state of the program and its environment.
`rateLimitStore` is the Go map of the same name; `clock` is the sequence of
readings that successive calls of `time.Now` and `time.Since` obtain and `reads`
counts the readings taken so far; `out` is the process output, oldest first.
The mutex `mu` holds no data: a handler run to completion finds it unlocked and
leaves it unlocked. The time stamp that package `log` puts before a record is
not modelled. -/
structure World where
  rateLimitStore : String → Option Int
  clock : Nat → Int
  reads : Nat
  out : List Output

/-- Go `time.Now()`: takes the next clock reading. -/
def World.Now (s : World) : Int × World :=
  (s.clock s.reads, { s with reads := s.reads + 1 })

/-- Go `time.Since(t)`, that is `time.Now().Sub(t)`. -/
def World.Since (s : World) (t : Int) : Int × World :=
  (saturate (s.clock s.reads - t), { s with reads := s.reads + 1 })

/-- Appends a record to the process output. -/
def World.emit (s : World) (o : Output) : World :=
  { s with out := s.out ++ [o] }

/-- Go map assignment `rateLimitStore[ip] = t`. -/
def World.setLast (s : World) (ip : String) (t : Int) : World :=
  { s with rateLimitStore := fun k => if k = ip then some t else s.rateLimitStore k }

/-! ## Responses and handlers -/

/-- The observable part of an `http.ResponseWriter`: whether the status line
has been written, the status code, and the body written so far. Response
headers are not modelled. -/
structure ResponseWriter where
  wroteHeader : Bool
  status : Nat
  body : String
  deriving DecidableEq, Repr

/-- The response writer that the server hands to the handler of a new request. -/
def newResponse : ResponseWriter :=
  { wroteHeader := false, status := 0, body := "" }

/-- Go `ResponseWriter.WriteHeader`: the first call fixes the status, a later
call is ignored. -/
def ResponseWriter.WriteHeader (w : ResponseWriter) (code : Nat) : ResponseWriter :=
  if w.wroteHeader then w else { w with wroteHeader := true, status := code }

/-- Go `ResponseWriter.Write`: writes status 200 first when no status has been
written, then appends the data to the body. -/
def ResponseWriter.Write (w : ResponseWriter) (data : String) : ResponseWriter :=
  let w1 := if w.wroteHeader then w else w.WriteHeader 200
  { w1 with body := w1.body ++ data }

/-- Go `fmt.Fprintln(w, msg)` with one string operand. -/
def Fprintln (w : ResponseWriter) (msg : String) : ResponseWriter :=
  w.Write (msg ++ "\n")

/-- Go `http.Error(w, msg, code)`: writes the status, then the message and a
newline as the body. -/
def httpError (w : ResponseWriter) (msg : String) (code : Nat) : ResponseWriter :=
  Fprintln (w.WriteHeader code) msg

/-- Go `http.StatusUnauthorized`. -/
def StatusUnauthorized : Nat := 401

/-- Go `http.StatusTooManyRequests`. -/
def StatusTooManyRequests : Nat := 429

/-- Go `http.Handler`: `ServeHTTP(w, r)` acting on the response writer and the
process state. -/
abbrev Handler := ResponseWriter → Request → World → ResponseWriter × World

/-- Source `LoggingMiddleware`. -/
def LoggingMiddleware (next : Handler) : Handler := fun w r s =>
  let (start, s) := s.Now
  let s := s.emit (.logStarted r.Method r.Path)
  let (w, s) := next w r s
  let (duration, s) := s.Since start
  (w, s.emit (.logCompleted duration))

/-- Source `AuthMiddleware`. -/
def AuthMiddleware (next : Handler) : Handler := fun w r s =>
  let apiKey := r.Header.Get "X-API-Key"
  let s := s.emit (.stdout ("X-API-Key " ++ apiKey))
  let apikey := r.Header.Get "x-API-key"
  let s := s.emit (.stdout ("x-API-key " ++ apikey))
  if apiKey ≠ "secret123" then
    (httpError w "Unauthorized" StatusUnauthorized, s)
  else
    next w r s

/-- Source `RateLimitMiddleware`. The two critical sections are the read of
`rateLimitStore[ip]` and the later assignment to it; `time.Since` is evaluated
only when the entry was found. A panic of `getRealIp` would leave the handler
before any effect. -/
def RateLimitMiddleware (next : Handler) : Handler := fun w r s =>
  match getRealIp r with
  | none => (w, s)
  | some ip =>
    let s := s.emit (.stdout ip)
    let lastRequest := s.rateLimitStore ip
    let (limited, s) :=
      match lastRequest with
      | some last =>
        let (elapsed, s) := s.Since last
        (decide (elapsed < 5 * Second), s)
      | none => (false, s)
    if limited then
      (httpError w "Too many requests. Please wait." StatusTooManyRequests, s)
    else
      let (now, s) := s.Now
      let s := s.setLast ip now
      next w r s

/-- Source `HelloHandler.ServeHTTP`. -/
def HelloHandler : Handler := fun w _ s =>
  (Fprintln w "Hello from HelloHandler!", s)

/-- The handler that `main` registers for `/hello`. -/
def wrappedHandler : Handler :=
  LoggingMiddleware (AuthMiddleware (RateLimitMiddleware HelloHandler))

/-- Serves the requests one after the other, each run to completion on a new
response writer before the next starts; the result lists, per request, the
response and the process state right after it. -/
def serveAll (h : Handler) : List Request → World → List (Request × ResponseWriter × World)
  | [], _ => []
  | r :: rs, s =>
    let res := h newResponse r s
    (r, res.1, res.2) :: serveAll h rs res.2

/-- The process state after serving the requests one after the other. -/
def serveAllFinal (h : Handler) : List Request → World → World
  | [], s => s
  | r :: rs, s => serveAllFinal h rs (h newResponse r s).2

/-! ## Specification vocabulary -/

/-- The header map holding exactly the listed entries. -/
def headerOf (entries : List (String × List String)) : Header :=
  fun k => (entries.lookup k).getD []

/-- A `GET /hello` request with the listed headers and connection address. -/
def requestOf (entries : List (String × List String)) (addr : String) : Request :=
  { Method := "GET", Path := "/hello", Header := headerOf entries, RemoteAddr := addr }

/-- The middleware `m` answers the request itself with `http.Error(w, msg, code)`:
the outcome is the same whatever the next handler is, so the next handler is
not called. -/
def Rejects (m : Handler → Handler) (w : ResponseWriter) (r : Request) (s : World)
    (msg : String) (code : Nat) : Prop :=
  ∃ s1 : World, ∀ next : Handler, m next w r s = (httpError w msg code, s1)

/-- The middleware `m` passes the request on: the outcome is that of one call of
the next handler, on the same response writer and request. -/
def Admits (m : Handler → Handler) (w : ResponseWriter) (r : Request) (s : World) : Prop :=
  ∃ s1 : World, ∀ next : Handler, m next w r s = next w r s1

/-- The entry of `id` in `store` is younger than the cool-down of five seconds
at clock reading `now`. -/
def InCooldown (store : String → Option Int) (id : String) (now : Int) : Prop :=
  ∃ last : Int, store id = some last ∧ now - last < 5 * Second

/-- The process state that `RateLimitMiddleware` hands to the next handler when
it admits a request of client `id`: the line printed, one clock reading taken
by `time.Since` when the client has an entry, one taken by `time.Now` and
stored as the new entry. -/
def admittedWorld (s : World) (id : String) : World :=
  match s.rateLimitStore id with
  | some _ =>
    { rateLimitStore := fun k => if k = id then some (s.clock (s.reads + 1)) else s.rateLimitStore k,
      clock := s.clock, reads := s.reads + 2, out := s.out ++ [.stdout id] }
  | none =>
    { rateLimitStore := fun k => if k = id then some (s.clock s.reads) else s.rateLimitStore k,
      clock := s.clock, reads := s.reads + 1, out := s.out ++ [.stdout id] }

/-- The process state with the listed store entries, the clock readings `clock`
of which `reads` are already taken, and no output. -/
def worldOf (entries : List (String × Int)) (clock : Nat → Int) (reads : Nat) : World :=
  { rateLimitStore := fun k => entries.lookup k, clock := clock, reads := reads, out := [] }

/-- A clock that advances by `step` nanoseconds per reading. -/
def steadyClock (step : Int) : Nat → Int := fun n => step * n

/-- Every stored time stamp is a clock reading already taken. -/
def StoreFromClock (s : World) : Prop :=
  ∀ k v, s.rateLimitStore k = some v → ∃ j, j < s.reads ∧ v = s.clock j

/-- The reference for the connection-address branch, in the words of the
specification: the substring before the first `:`, the whole address when it
holds no `:`. -/
def beforeFirstColon (addr : String) : String :=
  String.mk (addr.data.takeWhile (fun c => c ≠ ':'))

/-- The request `r` without its `X-Forwarded-For` header. -/
def withoutForwardedFor (r : Request) : Request :=
  { r with Header := fun k => if k = "X-Forwarded-For" then [] else r.Header k }

/-- The stages of the chain that write to the response. -/
inductive Stage where
  | auth
  | rateLimit
  | hello
  deriving DecidableEq, Repr

/-- The one write that each stage performs: `http.Error` with 401 in
`AuthMiddleware`, `http.Error` with 429 in `RateLimitMiddleware`, `fmt.Fprintln`
in `HelloHandler`. -/
def Stage.write : Stage → ResponseWriter → ResponseWriter
  | .auth, w => httpError w "Unauthorized" StatusUnauthorized
  | .rateLimit, w => httpError w "Too many requests. Please wait." StatusTooManyRequests
  | .hello, w => Fprintln w "Hello from HelloHandler!"

/-! ## Concurrent requests in the rate limiter

The body of the handler in `RateLimitMiddleware` is cut at its two critical
sections. The mutex makes each section atomic; between them the handler holds
only its local variables `lastRequest` and `found`. -/

/-- The program point of one request inside `RateLimitMiddleware`. -/
inductive Phase where
  /-- Before the first critical section. -/
  | start
  /-- After the first critical section, holding `lastRequest, found`. -/
  | checked (lastRequest : Option Int)
  /-- The condition of the `if` was false; before the second critical section. -/
  | passed
  /-- After the second critical section: the next handler is called. -/
  | admitted
  /-- The condition of the `if` was true: `http.Error` with 429, then return. -/
  | rejected
  deriving DecidableEq, Repr

/-- One atomic step of a request of client `ip` in `RateLimitMiddleware`:
`fmt.Println(ip)` and the locked read of `rateLimitStore[ip]`; the test
`found && time.Since(lastRequest) < 5*time.Second`; the locked assignment
`rateLimitStore[ip] = time.Now()`. A finished request does not move. -/
def limiterStep (ip : String) : Phase → World → Phase × World
  | .start, s =>
    let s := s.emit (.stdout ip)
    (.checked (s.rateLimitStore ip), s)
  | .checked (some last), s =>
    let (elapsed, s) := s.Since last
    if elapsed < 5 * Second then (.rejected, s) else (.passed, s)
  | .checked none, s => (.passed, s)
  | .passed, s =>
    let (now, s) := s.Now
    (.admitted, s.setLast ip now)
  | .admitted, s => (.admitted, s)
  | .rejected, s => (.rejected, s)

/-- Two requests of the clients `ipA` and `ipB` in flight at once: the shared
process state and the program point of each. -/
structure Race where
  world : World
  a : Phase
  b : Phase

/-- The scheduler lets request A (`false`) or request B (`true`) take its next
atomic step. -/
def Race.step (ipA ipB : String) (c : Race) (turn : Bool) : Race :=
  if turn then
    let res := limiterStep ipB c.b c.world
    { c with world := res.2, b := res.1 }
  else
    let res := limiterStep ipA c.a c.world
    { c with world := res.2, a := res.1 }

/-- Runs the two requests under the given schedule. -/
def Race.run (ipA ipB : String) (sched : List Bool) (c : Race) : Race :=
  sched.foldl (Race.step ipA ipB) c

/-- The process state in which `LoggingMiddleware` calls the next handler: the
start time read from the clock and the start record written. -/
def startedWorld (r : Request) (s : World) : World :=
  (s.Now.2).emit (.logStarted r.Method r.Path)

/-- The process state in which the chain calls `RateLimitMiddleware` for a
request with the right key: the logger has read the clock and written its start
record, `AuthMiddleware` has printed its two lines. -/
def limiterWorld (r : Request) (s : World) : World :=
  ((startedWorld r s).emit (.stdout ("X-API-Key " ++ r.Header.Get "X-API-Key"))).emit
    (.stdout ("x-API-key " ++ r.Header.Get "x-API-key"))

/-- One request alone in `RateLimitMiddleware`: its three atomic steps in a row. -/
def limiterRun (ip : String) (s : World) : Phase × World :=
  let p1 := limiterStep ip .start s
  let p2 := limiterStep ip p1.1 p1.2
  limiterStep ip p2.1 p2.2

/-- The store `b` holds every client that `a` holds. -/
def KeepsClients (a b : World) : Prop :=
  ∀ k, (a.rateLimitStore k).isSome = true → (b.rateLimitStore k).isSome = true

/-- The store `b` holds every client that `a` holds, with a time stamp that is
not earlier. -/
def KeepsStamps (a b : World) : Prop :=
  ∀ k v, a.rateLimitStore k = some v → ∃ v1, b.rateLimitStore k = some v1 ∧ v ≤ v1

/-! ## Lemmas on the string helpers -/

theorem splitChars_ne_nil (sep : Char) (cs : List Char) : splitChars sep cs ≠ [] := by
  cases cs with
  | nil => simp [splitChars]
  | cons c cs =>
    unfold splitChars
    split_ifs
    · simp
    · split <;> simp

theorem sep_not_mem_of_mem_splitChars (sep : Char) :
    ∀ (cs p : List Char), p ∈ splitChars sep cs → sep ∉ p := by
  intro cs
  induction cs with
  | nil => intro p hp; simp [splitChars] at hp; simp [hp]
  | cons c cs ih =>
    intro p hp
    unfold splitChars at hp
    split_ifs at hp with hc
    · rcases List.mem_cons.1 hp with h | h
      · simp [h]
      · exact ih p h
    · split at hp
      · simp at hp
        simp [hp]
        exact fun h => hc h.symm
      · rename_i q qs hq
        rcases List.mem_cons.1 hp with h | h
        · subst h
          have := ih q (by rw [hq]; simp)
          simp only [List.mem_cons, not_or]
          exact ⟨fun h => hc h.symm, this⟩
        · exact ih p (by rw [hq]; simp [h])

theorem mem_of_mem_trimChars {c : Char} {cs : List Char} (h : c ∈ trimChars cs) : c ∈ cs := by
  unfold trimChars at h
  rw [List.mem_reverse] at h
  have h1 := (List.dropWhile_sublist isSpace).subset h
  rw [List.mem_reverse] at h1
  exact (List.dropWhile_sublist isSpace).subset h1

theorem trimChars_getLast_not_space (cs : List Char) (c : Char)
    (h : (trimChars cs).getLast? = some c) : isSpace c = false := by
  unfold trimChars at h
  rw [List.getLast?_reverse] at h
  have := List.head?_dropWhile_not isSpace (cs.dropWhile isSpace).reverse
  rw [h] at this
  simpa using this

theorem trimChars_head_not_space (cs : List Char) (c : Char)
    (h : (trimChars cs).head? = some c) : isSpace c = false := by
  unfold trimChars at h
  set A := cs.dropWhile isSpace with hA
  have hsplit := List.takeWhile_append_dropWhile isSpace A.reverse
  have hA2 : A = (A.reverse.dropWhile isSpace).reverse ++ (A.reverse.takeWhile isSpace).reverse := by
    rw [← List.reverse_append, hsplit, List.reverse_reverse]
  have hhead : A.head? = some c := by
    rw [hA2, List.head?_append, h]; rfl
  have := List.head?_dropWhile_not isSpace cs
  rw [← hA, hhead] at this
  simpa using this

/-! ## Client identity -/

theorem firstNonEmpty_spec :
    ∀ (l : List String), (∃ p ∈ l, TrimSpace p ≠ "") →
      ∃ (pre : List String) (p : String) (post : List String),
        l = pre ++ p :: post ∧ (∀ q ∈ pre, TrimSpace q = "") ∧ TrimSpace p ≠ "" ∧
        firstNonEmpty l = some (TrimSpace p) := by
  intro l
  induction l with
  | nil => rintro ⟨p, hp, -⟩; simp at hp
  | cons a l ih =>
    rintro ⟨p, hp, hne⟩
    by_cases ha : TrimSpace a = ""
    · have hpl : p ∈ l := by
        rcases List.mem_cons.1 hp with h | h
        · subst h; exact absurd ha hne
        · exact h
      obtain ⟨pre, q, post, hl, hpre, hq, hres⟩ := ih ⟨p, hpl, hne⟩
      refine ⟨a :: pre, q, post, by simp [hl], ?_, hq, ?_⟩
      · intro x hx
        rcases List.mem_cons.1 hx with h | h
        · subst h; exact ha
        · exact hpre x h
      · simp [firstNonEmpty, ha, hres]
    · exact ⟨[], a, l, rfl, by simp, ha, by simp [firstNonEmpty, ha]⟩

theorem firstNonEmpty_eq_none :
    ∀ (l : List String), (∀ p ∈ l, TrimSpace p = "") → firstNonEmpty l = none := by
  intro l
  induction l with
  | nil => intro _; rfl
  | cons a l ih =>
    intro h
    have ha := h a (by simp)
    simp [firstNonEmpty, ha]
    exact ih (fun p hp => h p (by simp [hp]))

theorem Split_ne_nil (s : String) (sep : Char) : Split s sep ≠ [] := by
  simp [Split, splitChars_ne_nil]

/-- The connection-address branch of `getRealIp` never indexes an empty slice. -/
theorem Split_index_zero (s : String) (sep : Char) :
    (Split s sep)[0]? = some ((Split s sep).headD "") := by
  cases h : Split s sep with
  | nil => exact absurd h (Split_ne_nil s sep)
  | cons a l => simp

theorem getRealIp_isSome (r : Request) : ∃ id, getRealIp r = some id := by
  unfold getRealIp
  simp only
  split_ifs
  · exact ⟨_, rfl⟩
  · split
    · exact ⟨_, rfl⟩
    · exact ⟨_, Split_index_zero _ _⟩
  · exact ⟨_, Split_index_zero _ _⟩

/-- C8. Whenever the `X-Real-Ip` header value is non-empty, `getRealIp` returns
exactly that value, whatever `X-Forwarded-For` and the connection address are. -/
theorem getRealIp_realIp_wins (r : Request) (h : r.Header.Get "X-Real-Ip" ≠ "") :
    getRealIp r = some (r.Header.Get "X-Real-Ip") := by
  unfold getRealIp
  simp [h]

theorem getRealIp_realIp_wins_witness :
    (requestOf [("X-Real-Ip", [" 10.1.1.1, x "]), ("X-Forwarded-For", ["10.0.0.1"])]
        "203.0.113.7:54321").Header.Get "X-Real-Ip" ≠ "" ∧
    getRealIp (requestOf [("X-Real-Ip", [" 10.1.1.1, x "]), ("X-Forwarded-For", ["10.0.0.1"])]
        "203.0.113.7:54321") = some " 10.1.1.1, x " :=
  ⟨by decide, getRealIp_realIp_wins _ (by decide)⟩

/-- C9. With an empty or absent `X-Real-Ip`, when some comma-separated element of
the `X-Forwarded-For` value is non-empty after trimming, `getRealIp` returns the
trimmed form of the leftmost such element: every element before it trims to the
empty string. The result is non-empty, holds no comma, and neither starts nor
ends with white space. The value of the specification example resolves to
`10.0.0.1`. -/
theorem getRealIp_forwardedFor (r : Request)
    (hreal : r.Header.Get "X-Real-Ip" = "")
    (hsome : ∃ p ∈ Split (r.Header.Get "X-Forwarded-For") ',', TrimSpace p ≠ "") :
    (∃ (pre : List String) (p : String) (post : List String),
      Split (r.Header.Get "X-Forwarded-For") ',' = pre ++ p :: post ∧
      (∀ q ∈ pre, TrimSpace q = "") ∧
      getRealIp r = some (TrimSpace p) ∧
      TrimSpace p ≠ "" ∧
      ',' ∉ (TrimSpace p).data ∧
      (∀ c, (TrimSpace p).data.head? = some c → isSpace c = false) ∧
      (∀ c, (TrimSpace p).data.getLast? = some c → isSpace c = false)) ∧
    (r.Header.Get "X-Forwarded-For" = " 10.0.0.1 , 10.0.0.2" →
      getRealIp r = some "10.0.0.1") := by
  have hne : r.Header.Get "X-Forwarded-For" ≠ "" := by
    intro h0
    rw [h0] at hsome
    revert hsome
    decide
  have hget : ∀ v, firstNonEmpty (Split (r.Header.Get "X-Forwarded-For") ',') = some v →
      getRealIp r = some v := by
    intro v hv
    unfold getRealIp
    simp [hreal, hne, hv]
  constructor
  · obtain ⟨pre, p, post, hl, hpre, hp, hres⟩ := firstNonEmpty_spec _ hsome
    refine ⟨pre, p, post, hl, hpre, hget _ hres, hp, ?_, ?_, ?_⟩
    · have hmem : p ∈ Split (r.Header.Get "X-Forwarded-For") ',' := by rw [hl]; simp
      obtain ⟨cs, hcs, rfl⟩ := List.mem_map.1 hmem
      intro hc
      exact sep_not_mem_of_mem_splitChars ',' _ cs hcs (mem_of_mem_trimChars hc)
    · exact fun c hc => trimChars_head_not_space _ c hc
    · exact fun c hc => trimChars_getLast_not_space _ c hc
  · intro hv
    apply hget
    rw [hv]
    decide

theorem getRealIp_forwardedFor_witness :
    getRealIp (requestOf [("X-Forwarded-For", [" 10.0.0.1 , 10.0.0.2"])] "203.0.113.7:54321")
      = some "10.0.0.1" :=
  (getRealIp_forwardedFor
    (requestOf [("X-Forwarded-For", [" 10.0.0.1 , 10.0.0.2"])] "203.0.113.7:54321")
    (by decide) ⟨" 10.0.0.1 ", by decide, by decide⟩).2 (by decide)

/-- C10. On the connection address `[::1]:54321` of an IPv6 client, with no trust
header, `getRealIp` returns `[`, not the address `[::1]` left by stripping the
port `54321`. -/
theorem getRealIp_ipv6_bracket :
    getRealIp (requestOf [] "[::1]:54321") = some "[" ∧
    getRealIp (requestOf [] "[::1]:54321") ≠ some "[::1]" := by
  constructor <;> decide

/-! ## Responses -/

theorem httpError_wroteHeader (w : ResponseWriter) (msg : String) (code : Nat) :
    (httpError w msg code).wroteHeader = true := by
  unfold httpError Fprintln ResponseWriter.Write ResponseWriter.WriteHeader
  cases h : w.wroteHeader <;> simp [h]

theorem httpError_newResponse (msg : String) (code : Nat) :
    httpError newResponse msg code =
      { wroteHeader := true, status := code, body := "" ++ (msg ++ "\n") } := by
  simp [httpError, Fprintln, ResponseWriter.Write, ResponseWriter.WriteHeader, newResponse]

theorem httpError_status (w : ResponseWriter) (msg : String) (code : Nat)
    (hw : w.wroteHeader = false) : (httpError w msg code).status = code := by
  simp [httpError, Fprintln, ResponseWriter.Write, ResponseWriter.WriteHeader, hw]

theorem HelloHandler_newResponse (r : Request) (s : World) :
    HelloHandler newResponse r s =
      ({ wroteHeader := true, status := 200, body := "" ++ ("Hello from HelloHandler!" ++ "\n") },
        s) := by
  simp [HelloHandler, Fprintln, ResponseWriter.Write, ResponseWriter.WriteHeader, newResponse]

/-- A middleware cannot both answer a request itself and pass it on: a next
handler that writes nothing tells the two outcomes apart. -/
theorem not_rejects_and_admits (m : Handler → Handler) (w : ResponseWriter) (r : Request)
    (s : World) (msg : String) (code : Nat) :
    ¬ (Rejects m w r s msg code ∧ Admits m w r s) := by
  rintro ⟨⟨s1, h1⟩, ⟨s2, h2⟩⟩
  have h := (h1 (fun _ _ s => (newResponse, s))).symm.trans (h2 (fun _ _ s => (newResponse, s)))
  have h3 := congrArg (fun p => p.1.wroteHeader) h
  simp [httpError_wroteHeader, newResponse] at h3

/-! ## The clock -/

theorem saturate_lt_window (d : Int) : saturate d < 5 * Second ↔ d < 5 * Second := by
  unfold saturate Second
  split_ifs <;> omega

/-! ## The rate limiter, one request -/

theorem RateLimitMiddleware_reject (next : Handler) (w : ResponseWriter) (r : Request)
    (s : World) (id : String) (hid : getRealIp r = some id)
    (h : InCooldown s.rateLimitStore id (s.clock s.reads)) :
    RateLimitMiddleware next w r s =
      (httpError w "Too many requests. Please wait." StatusTooManyRequests,
        { s with reads := s.reads + 1, out := s.out ++ [.stdout id] }) := by
  obtain ⟨last, hlast, hlt⟩ := h
  have hsat := (saturate_lt_window (s.clock s.reads - last)).2 hlt
  simp [RateLimitMiddleware, hid, World.emit, World.Since, hlast, hsat]

theorem RateLimitMiddleware_pass (next : Handler) (w : ResponseWriter) (r : Request)
    (s : World) (id : String) (hid : getRealIp r = some id)
    (h : ¬ InCooldown s.rateLimitStore id (s.clock s.reads)) :
    RateLimitMiddleware next w r s = next w r (admittedWorld s id) := by
  cases hlast : s.rateLimitStore id with
  | none =>
    simp [RateLimitMiddleware, hid, World.emit, World.Now, World.setLast, hlast, admittedWorld]
  | some last =>
    have hge : ¬ (s.clock s.reads - last < 5 * Second) := fun hlt => h ⟨last, hlast, hlt⟩
    have hsat : ¬ (saturate (s.clock s.reads - last) < 5 * Second) :=
      fun hlt => hge ((saturate_lt_window _).1 hlt)
    simp [RateLimitMiddleware, hid, World.emit, World.Now, World.Since, World.setLast, hlast,
      hsat, admittedWorld]

theorem admittedWorld_reads (s : World) (id : String) :
    s.reads < (admittedWorld s id).reads ∧ (admittedWorld s id).reads ≤ s.reads + 2 := by
  unfold admittedWorld
  split <;> simp

theorem admittedWorld_clock (s : World) (id : String) :
    (admittedWorld s id).clock = s.clock := by
  unfold admittedWorld
  split <;> rfl

theorem admittedWorld_store_self (s : World) (id : String) :
    (admittedWorld s id).rateLimitStore id = some (s.clock ((admittedWorld s id).reads - 1)) := by
  unfold admittedWorld
  split <;> simp

theorem admittedWorld_store_other (s : World) (id k : String) (hk : k ≠ id) :
    (admittedWorld s id).rateLimitStore k = s.rateLimitStore k := by
  unfold admittedWorld
  split <;> simp [hk]

/-- C1. `RateLimitMiddleware` answers with `429 Too Many Requests`, without
calling the next handler, exactly when the store has an entry `last` for the
client and the clock reading `now` taken by `time.Since` has `now - last` below
five seconds; in every other case it passes the request on to the next handler.
A client without an entry is admitted, and so is one whose entry is exactly
five seconds old. -/
theorem rateLimit_decision (w : ResponseWriter) (r : Request) (s : World) (id : String)
    (hid : getRealIp r = some id) :
    (Rejects RateLimitMiddleware w r s "Too many requests. Please wait." 429 ↔
      InCooldown s.rateLimitStore id (s.clock s.reads)) ∧
    (Admits RateLimitMiddleware w r s ↔ ¬ InCooldown s.rateLimitStore id (s.clock s.reads)) ∧
    (InCooldown s.rateLimitStore id (s.clock s.reads) → w.wroteHeader = false →
      ∀ next, (RateLimitMiddleware next w r s).1.status = 429) ∧
    (s.rateLimitStore id = none → Admits RateLimitMiddleware w r s) ∧
    (∀ last, s.rateLimitStore id = some last → s.clock s.reads - last = 5 * Second →
      Admits RateLimitMiddleware w r s) := by
  have hrej : InCooldown s.rateLimitStore id (s.clock s.reads) →
      Rejects RateLimitMiddleware w r s "Too many requests. Please wait." 429 :=
    fun h => ⟨_, fun next => RateLimitMiddleware_reject next w r s id hid h⟩
  have hadm : ¬ InCooldown s.rateLimitStore id (s.clock s.reads) →
      Admits RateLimitMiddleware w r s :=
    fun h => ⟨_, fun next => RateLimitMiddleware_pass next w r s id hid h⟩
  refine ⟨⟨?_, hrej⟩, ⟨?_, hadm⟩, ?_, ?_, ?_⟩
  · intro h
    by_contra hc
    exact not_rejects_and_admits _ w r s _ _ ⟨h, hadm hc⟩
  · intro h hc
    exact not_rejects_and_admits _ w r s _ _ ⟨hrej hc, h⟩
  · intro h hw next
    rw [RateLimitMiddleware_reject next w r s id hid h]
    exact httpError_status w _ _ hw
  · intro hnone
    apply hadm
    rintro ⟨last, hlast, -⟩
    rw [hnone] at hlast
    cases hlast
  · intro last hlast heq
    apply hadm
    rintro ⟨l2, hl2, hlt⟩
    rw [hlast] at hl2
    cases hl2
    omega

theorem rateLimit_decision_witness :
    getRealIp (requestOf [] "203.0.113.7:54321") = some "203.0.113.7" ∧
    Rejects RateLimitMiddleware newResponse (requestOf [] "203.0.113.7:54321")
      (worldOf [("203.0.113.7", 0)] (steadyClock Second) 4) "Too many requests. Please wait." 429 :=
  ⟨by decide,
    (rateLimit_decision newResponse (requestOf [] "203.0.113.7:54321")
      (worldOf [("203.0.113.7", 0)] (steadyClock Second) 4) "203.0.113.7" (by decide)).1.2
      ⟨0, by decide, by decide⟩⟩

/-- C5. A rejected attempt returns with the store exactly as it found it. An
admitted attempt hands to the next handler a store that differs from the one it
found at the key of the client only, which then maps to the reading that
`time.Now` returned for the admission (the last reading taken); the entries of
all other clients are the same in both cases. -/
theorem rateLimit_store_transition (w : ResponseWriter) (r : Request) (s : World) (id : String)
    (hid : getRealIp r = some id) :
    (InCooldown s.rateLimitStore id (s.clock s.reads) →
      ∀ next, (RateLimitMiddleware next w r s).2.rateLimitStore = s.rateLimitStore) ∧
    (¬ InCooldown s.rateLimitStore id (s.clock s.reads) →
      ∃ s1 : World, (∀ next, RateLimitMiddleware next w r s = next w r s1) ∧
        s.reads < s1.reads ∧
        s1.rateLimitStore id = some (s.clock (s1.reads - 1)) ∧
        ∀ k, k ≠ id → s1.rateLimitStore k = s.rateLimitStore k) := by
  constructor
  · intro h next
    rw [RateLimitMiddleware_reject next w r s id hid h]
  · intro h
    exact ⟨admittedWorld s id, fun next => RateLimitMiddleware_pass next w r s id hid h,
      (admittedWorld_reads s id).1, admittedWorld_store_self s id,
      fun k hk => admittedWorld_store_other s id k hk⟩

theorem rateLimit_store_transition_witness :
    getRealIp (requestOf [] "203.0.113.7:54321") = some "203.0.113.7" ∧
    ∀ next, (RateLimitMiddleware next newResponse (requestOf [] "203.0.113.7:54321")
      (worldOf [("203.0.113.7", 0)] (steadyClock Second) 4)).2.rateLimitStore =
        (worldOf [("203.0.113.7", 0)] (steadyClock Second) 4).rateLimitStore :=
  ⟨by decide,
    (rateLimit_store_transition newResponse (requestOf [] "203.0.113.7:54321")
      (worldOf [("203.0.113.7", 0)] (steadyClock Second) 4) "203.0.113.7" (by decide)).1
      ⟨0, by decide, by decide⟩⟩

/-! ## Authentication -/

theorem canonical_api_key : CanonicalMIMEHeaderKey "X-API-Key" = "X-Api-Key" := by decide

theorem AuthMiddleware_pass (next : Handler) (w : ResponseWriter) (r : Request) (s : World)
    (h : r.Header.Get "X-API-Key" = "secret123") :
    AuthMiddleware next w r s =
      next w r ((s.emit (.stdout ("X-API-Key " ++ r.Header.Get "X-API-Key"))).emit
        (.stdout ("x-API-key " ++ r.Header.Get "x-API-key"))) := by
  simp [AuthMiddleware, h]

theorem AuthMiddleware_reject (next : Handler) (w : ResponseWriter) (r : Request) (s : World)
    (h : r.Header.Get "X-API-Key" ≠ "secret123") :
    AuthMiddleware next w r s =
      (httpError w "Unauthorized" StatusUnauthorized,
        (s.emit (.stdout ("X-API-Key " ++ r.Header.Get "X-API-Key"))).emit
          (.stdout ("x-API-key " ++ r.Header.Get "x-API-key"))) := by
  simp [AuthMiddleware, h]

/-- C6. `AuthMiddleware` passes the request to the next handler exactly when the
value of the header `X-API-Key` is the string `secret123`; for every other
value, a value in another letter case and the empty value of an absent header
included, it answers `401 Unauthorized` and does not call the next handler. -/
theorem auth_decision (w : ResponseWriter) (r : Request) (s : World) :
    (Admits AuthMiddleware w r s ↔ r.Header.Get "X-API-Key" = "secret123") ∧
    (Rejects AuthMiddleware w r s "Unauthorized" 401 ↔ r.Header.Get "X-API-Key" ≠ "secret123") ∧
    (r.Header.Get "X-API-Key" ≠ "secret123" → w.wroteHeader = false →
      ∀ next, (AuthMiddleware next w r s).1.status = 401) ∧
    (r.Header "X-Api-Key" = [] → Rejects AuthMiddleware w r s "Unauthorized" 401) ∧
    (r.Header.Get "X-API-Key" = "SECRET123" → Rejects AuthMiddleware w r s "Unauthorized" 401) := by
  have hadm : r.Header.Get "X-API-Key" = "secret123" → Admits AuthMiddleware w r s :=
    fun h => ⟨_, fun next => AuthMiddleware_pass next w r s h⟩
  have hrej : r.Header.Get "X-API-Key" ≠ "secret123" →
      Rejects AuthMiddleware w r s "Unauthorized" 401 :=
    fun h => ⟨_, fun next => AuthMiddleware_reject next w r s h⟩
  refine ⟨⟨?_, hadm⟩, ⟨?_, hrej⟩, ?_, ?_, ?_⟩
  · intro h
    by_contra hc
    exact not_rejects_and_admits _ w r s _ _ ⟨hrej hc, h⟩
  · intro h hc
    exact not_rejects_and_admits _ w r s _ _ ⟨h, hadm hc⟩
  · intro h hw next
    rw [AuthMiddleware_reject next w r s h]
    exact httpError_status w _ _ hw
  · intro habs
    apply hrej
    have : r.Header.Get "X-API-Key" = "" := by
      simp [Header.Get, canonical_api_key, habs]
    rw [this]
    decide
  · intro h
    apply hrej
    rw [h]
    decide

/-! ## The rate limiter in front of `HelloHandler`, serialized requests -/

theorem steadyClock_monotone (step : Int) (hstep : 0 ≤ step) : Monotone (steadyClock step) := by
  intro a b h
  simp only [steadyClock]
  have : (a : Int) ≤ b := by exact_mod_cast h
  nlinarith

/-- The two outcomes of one attempt on a new response writer. -/
theorem attempt_cases (r : Request) (s : World) (id : String) (hid : getRealIp r = some id) :
    (InCooldown s.rateLimitStore id (s.clock s.reads) ∧
      RateLimitMiddleware HelloHandler newResponse r s =
        ({ wroteHeader := true, status := 429,
           body := "" ++ ("Too many requests. Please wait." ++ "\n") },
          { s with reads := s.reads + 1, out := s.out ++ [.stdout id] })) ∨
    (¬ InCooldown s.rateLimitStore id (s.clock s.reads) ∧
      RateLimitMiddleware HelloHandler newResponse r s =
        ({ wroteHeader := true, status := 200,
           body := "" ++ ("Hello from HelloHandler!" ++ "\n") },
          admittedWorld s id)) := by
  by_cases h : InCooldown s.rateLimitStore id (s.clock s.reads)
  · left
    refine ⟨h, ?_⟩
    rw [RateLimitMiddleware_reject _ _ r s id hid h, httpError_newResponse]
    rfl
  · right
    refine ⟨h, ?_⟩
    rw [RateLimitMiddleware_pass _ _ r s id hid h, HelloHandler_newResponse]

theorem attempt_clock (r : Request) (s : World) :
    (RateLimitMiddleware HelloHandler newResponse r s).2.clock = s.clock := by
  obtain ⟨id, hid⟩ := getRealIp_isSome r
  rcases attempt_cases r s id hid with ⟨-, h⟩ | ⟨-, h⟩
  · rw [h]
  · rw [h]; exact admittedWorld_clock s id

theorem attempt_reads (r : Request) (s : World) :
    s.reads < (RateLimitMiddleware HelloHandler newResponse r s).2.reads := by
  obtain ⟨id, hid⟩ := getRealIp_isSome r
  rcases attempt_cases r s id hid with ⟨-, h⟩ | ⟨-, h⟩
  · rw [h]; simp
  · rw [h]; exact (admittedWorld_reads s id).1

theorem attempt_store_other (r : Request) (s : World) (id : String)
    (hne : getRealIp r ≠ some id) :
    (RateLimitMiddleware HelloHandler newResponse r s).2.rateLimitStore id =
      s.rateLimitStore id := by
  obtain ⟨id1, hid1⟩ := getRealIp_isSome r
  have hk : id ≠ id1 := fun h => hne (h ▸ hid1)
  rcases attempt_cases r s id1 hid1 with ⟨-, h⟩ | ⟨-, h⟩
  · rw [h]
  · rw [h]; exact admittedWorld_store_other s id1 id hk

/-- An entry is never removed and, under a non-decreasing clock, never moves back. -/
theorem attempt_store_grows (r : Request) (s : World) (hmono : Monotone s.clock)
    (k : String) (v : Int) (hv : s.rateLimitStore k = some v) :
    ∃ v1, (RateLimitMiddleware HelloHandler newResponse r s).2.rateLimitStore k = some v1 ∧
      v ≤ v1 := by
  obtain ⟨id, hid⟩ := getRealIp_isSome r
  rcases attempt_cases r s id hid with ⟨-, h⟩ | ⟨hnot, h⟩
  · rw [h]; exact ⟨v, hv, le_refl v⟩
  · rw [h]
    by_cases hk : k = id
    · subst hk
      refine ⟨_, admittedWorld_store_self s k, ?_⟩
      have hge : ¬ (s.clock s.reads - v < 5 * Second) := fun hlt => hnot ⟨v, hv, hlt⟩
      have h1 : s.clock s.reads ≤ s.clock ((admittedWorld s k).reads - 1) :=
        hmono (by have := (admittedWorld_reads s k).1; omega)
      unfold Second at hge
      omega
    · exact ⟨v, by rw [admittedWorld_store_other s id k hk]; exact hv, le_refl v⟩

/-- An admitted attempt records a time stamp at least five seconds after the
entry it found. -/
theorem attempt_admitted_records (r : Request) (s : World) (hmono : Monotone s.clock)
    (id : String) (hid : getRealIp r = some id)
    (hok : (RateLimitMiddleware HelloHandler newResponse r s).1.status = 200) :
    ∃ t, (RateLimitMiddleware HelloHandler newResponse r s).2.rateLimitStore id = some t ∧
      ∀ v, s.rateLimitStore id = some v → v + 5 * Second ≤ t := by
  rcases attempt_cases r s id hid with ⟨-, h⟩ | ⟨hnot, h⟩
  · rw [h] at hok; simp at hok
  · rw [h]
    refine ⟨_, admittedWorld_store_self s id, ?_⟩
    intro v hv
    have hge : ¬ (s.clock s.reads - v < 5 * Second) := fun hlt => hnot ⟨v, hv, hlt⟩
    have h1 : s.clock s.reads ≤ s.clock ((admittedWorld s id).reads - 1) :=
      hmono (by have := (admittedWorld_reads s id).1; omega)
    unfold Second at hge ⊢
    omega

theorem later_admitted_records :
    ∀ (rs : List Request) (s : World), Monotone s.clock →
      ∀ b ∈ serveAll (RateLimitMiddleware HelloHandler) rs s, b.2.1.status = 200 →
        ∀ id, getRealIp b.1 = some id → ∀ v, s.rateLimitStore id = some v →
          ∃ tb, b.2.2.rateLimitStore id = some tb ∧ v + 5 * Second ≤ tb := by
  intro rs
  induction rs with
  | nil => intro s _ b hb; simp [serveAll] at hb
  | cons r rs ih =>
    intro s hmono b hb hok id hid v hv
    simp only [serveAll, List.mem_cons] at hb
    rcases hb with hb | hb
    · subst hb
      obtain ⟨t, ht, hle⟩ := attempt_admitted_records r s hmono id hid hok
      exact ⟨t, ht, hle v hv⟩
    · obtain ⟨v1, hv1, hle⟩ := attempt_store_grows r s hmono id v hv
      have hmono1 : Monotone (RateLimitMiddleware HelloHandler newResponse r s).2.clock := by
        rw [attempt_clock]; exact hmono
      obtain ⟨tb, htb, hle2⟩ := ih _ hmono1 b hb hok id hid v1 hv1
      exact ⟨tb, htb, by omega⟩

/-- C2. Serve any finite sequence of requests through the rate limiter, one
after the other, under a non-decreasing clock and from any store (the empty one
in particular). Any two admitted attempts of the same client have recorded time
stamps, and the later one is at least five seconds after the earlier one. -/
theorem cooldown_invariant_serialized (rs : List Request) (s : World)
    (hmono : Monotone s.clock) :
    List.Pairwise
      (fun a b : Request × ResponseWriter × World =>
        a.2.1.status = 200 → b.2.1.status = 200 →
        ∀ id, getRealIp a.1 = some id → getRealIp b.1 = some id →
          ∃ ta tb, a.2.2.rateLimitStore id = some ta ∧ b.2.2.rateLimitStore id = some tb ∧
            ta + 5 * Second ≤ tb)
      (serveAll (RateLimitMiddleware HelloHandler) rs s) := by
  induction rs generalizing s with
  | nil => simp [serveAll]
  | cons r rs ih =>
    have hmono1 : Monotone (RateLimitMiddleware HelloHandler newResponse r s).2.clock := by
      rw [attempt_clock]; exact hmono
    simp only [serveAll]
    refine List.Pairwise.cons ?_ (ih _ hmono1)
    intro b hb hoka hokb id hida hidb
    obtain ⟨ta, hta, -⟩ := attempt_admitted_records r s hmono id hida hoka
    obtain ⟨tb, htb, hle⟩ := later_admitted_records rs _ hmono1 b hb hokb id hidb ta hta
    exact ⟨ta, tb, hta, htb, hle⟩

theorem cooldown_invariant_serialized_witness :
    Monotone (steadyClock (3 * Second)) ∧
    List.Pairwise
      (fun a b : Request × ResponseWriter × World =>
        a.2.1.status = 200 → b.2.1.status = 200 →
        ∀ id, getRealIp a.1 = some id → getRealIp b.1 = some id →
          ∃ ta tb, a.2.2.rateLimitStore id = some ta ∧ b.2.2.rateLimitStore id = some tb ∧
            ta + 5 * Second ≤ tb)
      (serveAll (RateLimitMiddleware HelloHandler)
        [requestOf [] "203.0.113.7:54321", requestOf [] "203.0.113.7:54321",
          requestOf [] "203.0.113.7:54321"]
        (worldOf [] (steadyClock (3 * Second)) 0)) :=
  ⟨steadyClock_monotone _ (by decide),
    cooldown_invariant_serialized _ (worldOf [] (steadyClock (3 * Second)) 0)
      (steadyClock_monotone _ (by decide))⟩

theorem serveAllFinal_clock (rs : List Request) (s : World) :
    (serveAllFinal (RateLimitMiddleware HelloHandler) rs s).clock = s.clock := by
  induction rs generalizing s with
  | nil => rfl
  | cons r rs ih => simp only [serveAllFinal]; rw [ih, attempt_clock]

theorem serveAllFinal_reads (rs : List Request) (s : World) :
    s.reads ≤ (serveAllFinal (RateLimitMiddleware HelloHandler) rs s).reads := by
  induction rs generalizing s with
  | nil => exact le_refl _
  | cons r rs ih =>
    simp only [serveAllFinal]
    exact le_trans (le_of_lt (attempt_reads r s)) (ih _)

theorem serveAllFinal_store_other (rs : List Request) (s : World) (id : String)
    (hne : ∀ q ∈ rs, getRealIp q ≠ some id) :
    (serveAllFinal (RateLimitMiddleware HelloHandler) rs s).rateLimitStore id =
      s.rateLimitStore id := by
  induction rs generalizing s with
  | nil => rfl
  | cons r rs ih =>
    simp only [serveAllFinal]
    rw [ih _ (fun q hq => hne q (by simp [hq])), attempt_store_other r s id (hne r (by simp))]

theorem attempt_storeFromClock (r : Request) (s : World) (h : StoreFromClock s) :
    StoreFromClock (RateLimitMiddleware HelloHandler newResponse r s).2 := by
  obtain ⟨id, hid⟩ := getRealIp_isSome r
  rcases attempt_cases r s id hid with ⟨-, he⟩ | ⟨-, he⟩
  · rw [he]
    intro k v hv
    obtain ⟨j, hj, hvj⟩ := h k v hv
    exact ⟨j, Nat.lt_succ_of_lt hj, hvj⟩
  · rw [he]
    show StoreFromClock (admittedWorld s id)
    intro k v hv
    rw [admittedWorld_clock]
    by_cases hk : k = id
    · subst hk
      rw [admittedWorld_store_self] at hv
      have := (admittedWorld_reads s k).1
      exact ⟨(admittedWorld s k).reads - 1, by omega, (Option.some.inj hv).symm⟩
    · rw [admittedWorld_store_other s id k hk] at hv
      obtain ⟨j, hj, hvj⟩ := h k v hv
      exact ⟨j, lt_trans hj (admittedWorld_reads s id).1, hvj⟩

theorem serveAllFinal_storeFromClock (rs : List Request) (s : World) (h : StoreFromClock s) :
    StoreFromClock (serveAllFinal (RateLimitMiddleware HelloHandler) rs s) := by
  induction rs generalizing s with
  | nil => exact h
  | cons r rs ih => exact ih _ (attempt_storeFromClock r s h)

/-- C3. After an admitted attempt of client `id`, which records the time stamp
`t1` (the reading that `time.Now` returned to it), and after any number of
attempts of other clients, each run to completion, an attempt of `id` whose
clock reading `t2` has `t2 - t1` below five seconds is answered with
`429 Too Many Requests` and does not reach the next handler; the store keeps
`t1`. -/
theorem second_attempt_inside_window (r1 r2 : Request) (mid : List Request) (s s1 s2 : World)
    (id : String) (t1 : Int) (w : ResponseWriter)
    (hid1 : getRealIp r1 = some id) (hid2 : getRealIp r2 = some id)
    (hmid : ∀ q ∈ mid, getRealIp q ≠ some id)
    (hadm : (RateLimitMiddleware HelloHandler newResponse r1 s).1.status = 200)
    (hs1 : s1 = (RateLimitMiddleware HelloHandler newResponse r1 s).2)
    (hrec : s1.rateLimitStore id = some t1)
    (hs2 : s2 = serveAllFinal (RateLimitMiddleware HelloHandler) mid s1)
    (hlt : s2.clock s2.reads - t1 < 5 * Second) :
    Rejects RateLimitMiddleware w r2 s2 "Too many requests. Please wait." 429 ∧
    (w.wroteHeader = false → ∀ next, (RateLimitMiddleware next w r2 s2).1.status = 429) ∧
    (∀ next, (RateLimitMiddleware next w r2 s2).2.rateLimitStore id = some t1) ∧
    t1 = s.clock (s1.reads - 1) := by
  have hstore : s2.rateLimitStore id = some t1 := by
    rw [hs2, serveAllFinal_store_other mid s1 id hmid, hrec]
  have hcool : InCooldown s2.rateLimitStore id (s2.clock s2.reads) := ⟨t1, hstore, hlt⟩
  refine ⟨⟨_, fun next => RateLimitMiddleware_reject next w r2 _ id hid2 hcool⟩, ?_, ?_, ?_⟩
  · intro hw next
    rw [RateLimitMiddleware_reject next w r2 _ id hid2 hcool]
    exact httpError_status w _ _ hw
  · intro next
    rw [RateLimitMiddleware_reject next w r2 _ id hid2 hcool]
    exact hstore
  · rcases attempt_cases r1 s id hid1 with ⟨-, he⟩ | ⟨-, he⟩
    · rw [he] at hadm; simp at hadm
    · rw [he] at hs1
      have h1 : s1 = admittedWorld s id := hs1
      rw [h1, admittedWorld_store_self] at hrec
      rw [h1]
      exact (Option.some.inj hrec).symm

theorem second_attempt_inside_window_witness :
    Rejects RateLimitMiddleware newResponse (requestOf [] "203.0.113.7:54321")
      (serveAllFinal (RateLimitMiddleware HelloHandler) [requestOf [] "198.51.100.2:80"]
        (RateLimitMiddleware HelloHandler newResponse (requestOf [] "203.0.113.7:54321")
          (worldOf [] (steadyClock Second) 0)).2)
      "Too many requests. Please wait." 429 :=
  (second_attempt_inside_window (requestOf [] "203.0.113.7:54321")
    (requestOf [] "203.0.113.7:54321") [requestOf [] "198.51.100.2:80"]
    (worldOf [] (steadyClock Second) 0) _ _ "203.0.113.7" 0 newResponse
    (by decide) (by decide) (by decide) (by decide) rfl (by decide) rfl (by decide)).1

/-- C4. In a store reached from the empty one by serialized attempts under a
non-decreasing clock, let an attempt of client `id` take its last clock reading
at `t1` (the reading compared when it is rejected, the reading stored when it
is admitted), and let the next attempt of `id`, with attempts of other clients
only in between, read the clock at `t2` with `t2 - t1` above five seconds. Then
the second attempt is admitted, whether the first one was admitted or not. -/
theorem second_attempt_after_window (pre mid : List Request) (r1 r2 : Request)
    (s0 s s1 s2 : World) (id : String) (w : ResponseWriter)
    (hempty : ∀ k, s0.rateLimitStore k = none) (hmono : Monotone s0.clock)
    (hid1 : getRealIp r1 = some id) (hid2 : getRealIp r2 = some id)
    (hmid : ∀ q ∈ mid, getRealIp q ≠ some id)
    (hs : s = serveAllFinal (RateLimitMiddleware HelloHandler) pre s0)
    (hs1 : s1 = (RateLimitMiddleware HelloHandler newResponse r1 s).2)
    (hs2 : s2 = serveAllFinal (RateLimitMiddleware HelloHandler) mid s1)
    (hgt : s2.clock s2.reads - s1.clock (s1.reads - 1) > 5 * Second) :
    Admits RateLimitMiddleware w r2 s2 ∧
    (RateLimitMiddleware HelloHandler newResponse r2 s2).1.status = 200 ∧
    ((RateLimitMiddleware HelloHandler newResponse r1 s).1.status = 200 ∨
      (RateLimitMiddleware HelloHandler newResponse r1 s).1.status = 429) := by
  have hinv0 : StoreFromClock s0 := by
    intro k v hv
    rw [hempty k] at hv
    cases hv
  have hinv1 : StoreFromClock s1 := by
    rw [hs1, hs]
    exact attempt_storeFromClock _ _ (serveAllFinal_storeFromClock _ _ hinv0)
  have hclock1 : s1.clock = s0.clock := by
    rw [hs1, attempt_clock, hs, serveAllFinal_clock]
  have hnot : ¬ InCooldown s2.rateLimitStore id (s2.clock s2.reads) := by
    rintro ⟨last, hlast, hlt⟩
    rw [hs2, serveAllFinal_store_other mid s1 id hmid] at hlast
    obtain ⟨j, hj, hvj⟩ := hinv1 id last hlast
    have hle : s1.clock j ≤ s1.clock (s1.reads - 1) := by
      rw [hclock1]
      exact hmono (by omega)
    unfold Second at hgt hlt
    omega
  refine ⟨⟨_, fun next => RateLimitMiddleware_pass next w r2 s2 id hid2 hnot⟩, ?_, ?_⟩
  · rcases attempt_cases r2 s2 id hid2 with ⟨hc, -⟩ | ⟨-, he⟩
    · exact absurd hc hnot
    · rw [he]
  · rcases attempt_cases r1 s id hid1 with ⟨-, he⟩ | ⟨-, he⟩
    · right; rw [he]
    · left; rw [he]

theorem second_attempt_after_window_witness :
    Admits RateLimitMiddleware newResponse (requestOf [] "203.0.113.7:54321")
      (serveAllFinal (RateLimitMiddleware HelloHandler) [requestOf [] "198.51.100.2:80"]
        (RateLimitMiddleware HelloHandler newResponse (requestOf [] "203.0.113.7:54321")
          (serveAllFinal (RateLimitMiddleware HelloHandler) []
            (worldOf [] (steadyClock (6 * Second)) 0))).2) :=
  (second_attempt_after_window [] [requestOf [] "198.51.100.2:80"]
    (requestOf [] "203.0.113.7:54321") (requestOf [] "203.0.113.7:54321")
    (worldOf [] (steadyClock (6 * Second)) 0) _ _ _ "203.0.113.7" newResponse
    (fun _ => rfl) (steadyClock_monotone _ (by decide)) (by decide) (by decide) (by decide)
    rfl rfl rfl (by decide)).1

/-! ## The whole chain -/

/-- The process state in which the chain hands a request with the right key to
the rate limiter: one clock reading taken by the logger, three records written. -/
theorem wrappedHandler_eq (w : ResponseWriter) (r : Request) (s : World)
    (hkey : r.Header.Get "X-API-Key" = "secret123") :
    wrappedHandler w r s =
      ((RateLimitMiddleware HelloHandler w r
          { s with reads := s.reads + 1,
                   out := s.out ++ [.logStarted r.Method r.Path] ++
                     [.stdout ("X-API-Key " ++ r.Header.Get "X-API-Key")] ++
                     [.stdout ("x-API-key " ++ r.Header.Get "x-API-key")] }).1,
        (((RateLimitMiddleware HelloHandler w r
          { s with reads := s.reads + 1,
                   out := s.out ++ [.logStarted r.Method r.Path] ++
                     [.stdout ("X-API-Key " ++ r.Header.Get "X-API-Key")] ++
                     [.stdout ("x-API-key " ++ r.Header.Get "x-API-key")] }).2.Since
            (s.clock s.reads)).2.emit
          (.logCompleted ((RateLimitMiddleware HelloHandler w r
          { s with reads := s.reads + 1,
                   out := s.out ++ [.logStarted r.Method r.Path] ++
                     [.stdout ("X-API-Key " ++ r.Header.Get "X-API-Key")] ++
                     [.stdout ("x-API-key " ++ r.Header.Get "x-API-key")] }).2.Since
            (s.clock s.reads)).1))) := by
  unfold wrappedHandler LoggingMiddleware
  simp only [World.Now]
  rw [AuthMiddleware_pass _ _ _ _ hkey]
  rfl

/-- C7. Through the chain that `main` registers, a request with `X-API-Key`
equal to `secret123` whose client has no entry in the store gets status 200 and
the body `Hello from HelloHandler!` with a newline, and its time stamp is
recorded. A second request with the same key and the same client, for which
the rate limiter reads the clock less than five seconds after that time stamp,
gets status 429. -/
theorem chain_end_to_end (r1 r2 : Request) (s s1 : World) (id : String)
    (hkey1 : r1.Header.Get "X-API-Key" = "secret123")
    (hkey2 : r2.Header.Get "X-API-Key" = "secret123")
    (hid1 : getRealIp r1 = some id) (hid2 : getRealIp r2 = some id)
    (hnew : s.rateLimitStore id = none)
    (hs1 : s1 = (wrappedHandler newResponse r1 s).2) :
    (wrappedHandler newResponse r1 s).1.status = 200 ∧
    (wrappedHandler newResponse r1 s).1.body = "Hello from HelloHandler!\n" ∧
    ∃ t1, s1.rateLimitStore id = some t1 ∧
      (s1.clock (s1.reads + 1) - t1 < 5 * Second →
        (wrappedHandler newResponse r2 s1).1.status = 429 ∧
        (wrappedHandler newResponse r2 s1).1.body = "Too many requests. Please wait.\n") := by
  have hnot : ∀ (o : List Output), ¬ InCooldown
      ({ s with reads := s.reads + 1, out := o } : World).rateLimitStore id
      (({ s with reads := s.reads + 1, out := o } : World).clock
        ({ s with reads := s.reads + 1, out := o } : World).reads) := by
    rintro o ⟨last, hlast, -⟩
    rw [show ({ s with reads := s.reads + 1, out := o } : World).rateLimitStore id =
      s.rateLimitStore id from rfl, hnew] at hlast
    cases hlast
  have h1 := wrappedHandler_eq newResponse r1 s hkey1
  rw [RateLimitMiddleware_pass _ _ _ _ id hid1 (hnot _), HelloHandler_newResponse] at h1
  have hstore : s1.rateLimitStore id = some (s.clock (s.reads + 1)) := by
    rw [hs1, h1]
    simp [World.Since, World.emit, admittedWorld, hnew]
  have hreads : s1.reads = s.reads + 3 := by
    rw [hs1, h1]
    simp [World.Since, World.emit, admittedWorld, hnew]
  have hclock : s1.clock = s.clock := by
    rw [hs1, h1]
    simp [World.Since, World.emit, admittedWorld, hnew]
  refine ⟨by rw [h1], by rw [h1]; rfl, _, hstore, ?_⟩
  intro hlt
  have h2 := wrappedHandler_eq newResponse r2 s1 hkey2
  have hcool : ∀ (o : List Output), InCooldown
      ({ s1 with reads := s1.reads + 1, out := o } : World).rateLimitStore id
      (({ s1 with reads := s1.reads + 1, out := o } : World).clock
        ({ s1 with reads := s1.reads + 1, out := o } : World).reads) :=
    fun o => ⟨_, hstore, hlt⟩
  rw [RateLimitMiddleware_reject _ _ _ _ id hid2 (hcool _), httpError_newResponse] at h2
  rw [h2]
  exact ⟨rfl, rfl⟩


theorem chain_end_to_end_witness :
    (wrappedHandler newResponse (requestOf [("X-Api-Key", ["secret123"])] "203.0.113.7:54321")
      (wrappedHandler newResponse (requestOf [("X-Api-Key", ["secret123"])] "203.0.113.7:54321")
        (worldOf [] (steadyClock Second) 0)).2).1.status = 429 := by
  obtain ⟨-, -, t1, ht1, h⟩ :=
    chain_end_to_end (requestOf [("X-Api-Key", ["secret123"])] "203.0.113.7:54321")
      (requestOf [("X-Api-Key", ["secret123"])] "203.0.113.7:54321")
      (worldOf [] (steadyClock Second) 0) _ "203.0.113.7"
      (by decide) (by decide) (by decide) (by decide) rfl rfl
  have h0 : (wrappedHandler newResponse
      (requestOf [("X-Api-Key", ["secret123"])] "203.0.113.7:54321")
      (worldOf [] (steadyClock Second) 0)).2.rateLimitStore "203.0.113.7" =
        some 1000000000 := by decide
  rw [h0] at ht1
  cases ht1
  exact (h (by decide)).1

/-! ## The connection-address branch -/

theorem splitChars_head (sep : Char) (cs : List Char) :
    (splitChars sep cs)[0]? = some (cs.takeWhile (fun c => c ≠ sep)) := by
  induction cs with
  | nil => simp [splitChars]
  | cons c cs ih =>
    unfold splitChars
    by_cases hc : c = sep
    · simp [hc]
    · simp only [hc, if_false]
      cases hsp : splitChars sep cs with
      | nil => exact absurd hsp (splitChars_ne_nil sep cs)
      | cons p ps =>
        rw [hsp] at ih
        simp at ih
        simp [List.takeWhile_cons, hc, ih]

theorem Split_colon_head (addr : String) :
    (Split addr ':')[0]? = some (beforeFirstColon addr) := by
  unfold Split beforeFirstColon
  rw [List.getElem?_map, splitChars_head]
  rfl

theorem getRealIp_fallback (r : Request) (hreal : r.Header.Get "X-Real-Ip" = "")
    (hnone : r.Header.Get "X-Forwarded-For" = "" ∨
      firstNonEmpty (Split (r.Header.Get "X-Forwarded-For") ',') = none) :
    getRealIp r = some (beforeFirstColon r.RemoteAddr) := by
  unfold getRealIp
  simp only [hreal, ne_eq, not_true_eq_false, if_false]
  rw [Split_colon_head]
  rcases hnone with h | h
  · simp [h]
  · rw [h]
    split_ifs <;> rfl

theorem prefix_le_takeWhile_of_not_mem (sep : Char) :
    ∀ (l p : List Char), p <+: l → sep ∉ p →
      p.length ≤ (l.takeWhile (fun c => c ≠ sep)).length := by
  intro l
  induction l with
  | nil =>
    intro p hp _
    simp [List.prefix_nil.1 hp]
  | cons c cs ih =>
    intro p hp hsep
    cases p with
    | nil => simp
    | cons d ds =>
      obtain ⟨hdc, hds⟩ := List.cons_prefix_cons.1 hp
      subst hdc
      have hne : d ≠ sep := fun h => hsep (by simp [h])
      have := ih ds hds (fun h => hsep (List.mem_cons_of_mem _ h))
      rw [List.takeWhile_cons]
      simp only [ne_eq, hne, not_false_eq_true, decide_True, if_true, List.length_cons]
      exact Nat.succ_le_succ this

/-- C11. With `X-Real-Ip` and `X-Forwarded-For` both empty or absent, `getRealIp`
returns the longest prefix of the connection address that holds no `:`: the
result is a prefix of the address without `:`, no prefix without `:` is longer,
it is the text before the first `:` when there is one and the whole address
when there is none. -/
theorem getRealIp_fallback_reference (r : Request)
    (hreal : r.Header.Get "X-Real-Ip" = "") (hfwd : r.Header.Get "X-Forwarded-For" = "") :
    getRealIp r = some (beforeFirstColon r.RemoteAddr) ∧
    ':' ∉ (beforeFirstColon r.RemoteAddr).data ∧
    (beforeFirstColon r.RemoteAddr).data <+: r.RemoteAddr.data ∧
    (∀ p : List Char, p <+: r.RemoteAddr.data → ':' ∉ p →
      p.length ≤ (beforeFirstColon r.RemoteAddr).data.length) ∧
    (∀ a b : List Char, r.RemoteAddr.data = a ++ ':' :: b → ':' ∉ a →
      (beforeFirstColon r.RemoteAddr).data = a) ∧
    (':' ∉ r.RemoteAddr.data → beforeFirstColon r.RemoteAddr = r.RemoteAddr) := by
  refine ⟨getRealIp_fallback r hreal (Or.inl hfwd), ?_, ?_, ?_, ?_, ?_⟩
  · intro h
    have := List.mem_takeWhile_imp h
    simp at this
  · exact List.takeWhile_prefix _
  · exact prefix_le_takeWhile_of_not_mem ':' _
  · intro a b hab ha
    show List.takeWhile (fun c => c ≠ ':') r.RemoteAddr.data = a
    rw [hab, List.takeWhile_append_of_pos]
    · simp
    · intro x hx
      have : x ≠ ':' := fun h => ha (h ▸ hx)
      simpa using this
  · intro h
    unfold beforeFirstColon
    have : List.takeWhile (fun c => c ≠ ':') r.RemoteAddr.data = r.RemoteAddr.data := by
      rw [List.takeWhile_eq_self_iff]
      intro x hx
      have : x ≠ ':' := fun h2 => h (h2 ▸ hx)
      simpa using this
    rw [this]

theorem getRealIp_fallback_reference_witness :
    getRealIp (requestOf [] "[::1]:54321") = some (beforeFirstColon "[::1]:54321") :=
  (getRealIp_fallback_reference (requestOf [] "[::1]:54321") (by decide) (by decide)).1

theorem withoutForwardedFor_realIp (r : Request) :
    (withoutForwardedFor r).Header.Get "X-Real-Ip" = r.Header.Get "X-Real-Ip" := by
  have hk : CanonicalMIMEHeaderKey "X-Real-Ip" = "X-Real-Ip" := by decide
  simp only [withoutForwardedFor, Header.Get, hk]
  rw [if_neg (by decide)]

theorem withoutForwardedFor_forwardedFor (r : Request) :
    (withoutForwardedFor r).Header.Get "X-Forwarded-For" = "" := by
  have hk : CanonicalMIMEHeaderKey "X-Forwarded-For" = "X-Forwarded-For" := by decide
  simp [withoutForwardedFor, Header.Get, hk]

/-- C18. With `X-Real-Ip` empty or absent and an `X-Forwarded-For` value whose
comma-separated elements all trim to the empty string (a non-empty value such
as ` , ,` included), `getRealIp` returns what it returns for the same request
without the `X-Forwarded-For` header: the connection address up to its first
`:`. -/
theorem getRealIp_blank_forwardedFor (r : Request)
    (hreal : r.Header.Get "X-Real-Ip" = "")
    (hblank : ∀ p ∈ Split (r.Header.Get "X-Forwarded-For") ',', TrimSpace p = "") :
    getRealIp r = getRealIp (withoutForwardedFor r) ∧
    getRealIp r = some (beforeFirstColon r.RemoteAddr) := by
  have h1 : getRealIp r = some (beforeFirstColon r.RemoteAddr) :=
    getRealIp_fallback r hreal (Or.inr (firstNonEmpty_eq_none _ hblank))
  have h2 : getRealIp (withoutForwardedFor r) = some (beforeFirstColon r.RemoteAddr) :=
    getRealIp_fallback (withoutForwardedFor r)
      ((withoutForwardedFor_realIp r).trans hreal)
      (Or.inl (withoutForwardedFor_forwardedFor r))
  exact ⟨h1.trans h2.symm, h1⟩

theorem getRealIp_blank_forwardedFor_witness :
    getRealIp (requestOf [("X-Forwarded-For", [" , ,"])] "203.0.113.7:54321") =
      some (beforeFirstColon "203.0.113.7:54321") :=
  (getRealIp_blank_forwardedFor (requestOf [("X-Forwarded-For", [" , ,"])] "203.0.113.7:54321")
    (by decide) (by decide)).2

/-- C19. `getRealIp` returns a string for every request: splitting the connection
address, the empty one included, yields at least one element, so the index
`[0]` is in bounds and the function never panics. -/
theorem getRealIp_never_panics (r : Request) :
    (∃ ip, getRealIp r = some ip) ∧
    0 < (Split r.RemoteAddr ':').length ∧
    (∃ p, (Split r.RemoteAddr ':')[0]? = some p) ∧
    Split "" ':' = [""] ∧
    (':' ∉ r.RemoteAddr.data → Split r.RemoteAddr ':' = [r.RemoteAddr]) := by
  refine ⟨getRealIp_isSome r, ?_, ⟨_, Split_index_zero _ _⟩, by decide, ?_⟩
  · exact List.length_pos.2 (Split_ne_nil _ _)
  · intro h
    have : ∀ cs : List Char, ':' ∉ cs → splitChars ':' cs = [cs] := by
      intro cs
      induction cs with
      | nil => intro _; rfl
      | cons c cs ih =>
        intro hc
        have hne : c ≠ ':' := fun e => hc (by simp [e])
        have := ih (fun e => hc (List.mem_cons_of_mem _ e))
        simp [splitChars, hne, this]
    simp [Split, this _ h]

/-! ## Header names -/

/-- C12. In every header map the names `X-API-Key` and `x-API-key` read the same
value: both canonicalise to the key `X-Api-Key`, so the two reads in
`AuthMiddleware` agree. -/
theorem header_name_case_insensitive (h : Header) :
    h.Get "X-API-Key" = h.Get "x-API-key" ∧
    CanonicalMIMEHeaderKey "X-API-Key" = "X-Api-Key" ∧
    CanonicalMIMEHeaderKey "x-API-key" = "X-Api-Key" := by
  have h1 : CanonicalMIMEHeaderKey "X-API-Key" = "X-Api-Key" := by decide
  have h2 : CanonicalMIMEHeaderKey "x-API-key" = "X-Api-Key" := by decide
  exact ⟨by simp [Header.Get, h1, h2], h1, h2⟩

/-! ## Short circuit at the authentication stage -/

theorem LoggingMiddleware_auth_reject (next : Handler) (w : ResponseWriter) (r : Request)
    (s : World) (hkey : r.Header.Get "X-API-Key" ≠ "secret123") :
    LoggingMiddleware (AuthMiddleware next) w r s =
      (httpError w "Unauthorized" 401,
        { s with reads := s.reads + 1 + 1,
                 out := s.out ++ [.logStarted r.Method r.Path] ++
                   [.stdout ("X-API-Key " ++ r.Header.Get "X-API-Key")] ++
                   [.stdout ("x-API-key " ++ r.Header.Get "x-API-key")] ++
                   [.logCompleted (saturate (s.clock (s.reads + 1) - s.clock s.reads))] }) := by
  unfold LoggingMiddleware
  simp only [World.Now]
  rw [AuthMiddleware_reject _ _ _ _ hkey]
  rfl

/-- C13. In the chain, a request whose `X-API-Key` value is not `secret123` is
answered with `401 Unauthorized` whatever handler stands behind
`AuthMiddleware`: neither the rate limiter nor the terminal handler runs, and
the rate-limit store comes back exactly as it was. -/
theorem auth_short_circuits (w : ResponseWriter) (r : Request) (s : World)
    (hkey : r.Header.Get "X-API-Key" ≠ "secret123") :
    (∃ s1 : World, s1.rateLimitStore = s.rateLimitStore ∧
      (∀ next : Handler, LoggingMiddleware (AuthMiddleware next) w r s =
        (httpError w "Unauthorized" 401, s1)) ∧
      (∀ h : Handler, LoggingMiddleware (AuthMiddleware (RateLimitMiddleware h)) w r s =
        (httpError w "Unauthorized" 401, s1))) ∧
    (wrappedHandler w r s).1 = httpError w "Unauthorized" 401 ∧
    (wrappedHandler w r s).2.rateLimitStore = s.rateLimitStore ∧
    (w.wroteHeader = false → (wrappedHandler w r s).1.status = 401) := by
  have hgen := fun next : Handler => LoggingMiddleware_auth_reject next w r s hkey
  refine ⟨⟨_, ?_, hgen, fun h => hgen _⟩, ?_, ?_, ?_⟩
  · rfl
  · unfold wrappedHandler; rw [hgen]
  · unfold wrappedHandler; rw [hgen]
  · intro hw
    unfold wrappedHandler; rw [hgen]
    exact httpError_status w _ _ hw

theorem auth_short_circuits_witness :
    (wrappedHandler newResponse
      (requestOf [("X-Api-Key", ["secret12"])] "203.0.113.7:54321")
      (worldOf [("203.0.113.7", 0)] (steadyClock Second) 0)).2.rateLimitStore =
    (worldOf [("203.0.113.7", 0)] (steadyClock Second) 0).rateLimitStore :=
  (auth_short_circuits newResponse
    (requestOf [("X-Api-Key", ["secret12"])] "203.0.113.7:54321")
    (worldOf [("203.0.113.7", 0)] (steadyClock Second) 0) (by decide)).2.2.1

/-! ## The logger -/

theorem LoggingMiddleware_eq (h : Handler) (w : ResponseWriter) (r : Request) (s : World) :
    LoggingMiddleware h w r s =
      ((h w r (startedWorld r s)).1,
        (((h w r (startedWorld r s)).2.Since (s.clock s.reads)).2).emit
          (.logCompleted ((h w r (startedWorld r s)).2.Since (s.clock s.reads)).1)) := by
  rfl

/-- The handler that `main` puts behind the logger never reads the process
output: its response and its store are the same whatever was written so far. -/
theorem chain_ignores_output (w : ResponseWriter) (r : Request) (s1 : World)
    (o : List Output) :
    (AuthMiddleware (RateLimitMiddleware HelloHandler) w r { s1 with out := o }).1 =
      (AuthMiddleware (RateLimitMiddleware HelloHandler) w r s1).1 ∧
    (AuthMiddleware (RateLimitMiddleware HelloHandler) w r { s1 with out := o }).2.rateLimitStore =
      (AuthMiddleware (RateLimitMiddleware HelloHandler) w r s1).2.rateLimitStore := by
  obtain ⟨id, hid⟩ := getRealIp_isSome r
  by_cases hkey : r.Header.Get "X-API-Key" = "secret123"
  · rw [AuthMiddleware_pass _ w r _ hkey, AuthMiddleware_pass _ w r _ hkey]
    by_cases hc : InCooldown s1.rateLimitStore id (s1.clock s1.reads)
    · rw [RateLimitMiddleware_reject _ w r _ id hid (by exact hc),
        RateLimitMiddleware_reject _ w r _ id hid (by exact hc)]
      exact ⟨rfl, rfl⟩
    · rw [RateLimitMiddleware_pass _ w r _ id hid (by exact hc),
        RateLimitMiddleware_pass _ w r _ id hid (by exact hc)]
      refine ⟨rfl, ?_⟩
      simp only [HelloHandler, admittedWorld, World.emit]
      cases s1.rateLimitStore id <;> rfl
  · rw [AuthMiddleware_reject _ w r _ hkey, AuthMiddleware_reject _ w r _ hkey]
    exact ⟨rfl, rfl⟩

/-- C14, as amended. `LoggingMiddleware(h)` calls `h` exactly once, on the response
writer and the request it was given and on the store it found, after it has
taken one clock reading and written its start record; it returns the response
and the store of that call unchanged and adds only the completion record with
the duration. Hence, for a handler that does not read the process output, the
response and the store are those of `h` alone started one clock reading later,
and for a handler whose outcome depends on the store only they are those of
`h` alone. -/
theorem logger_transparent (h : Handler) (w : ResponseWriter) (r : Request) (s : World) :
    (LoggingMiddleware h w r s).1 = (h w r (startedWorld r s)).1 ∧
    (LoggingMiddleware h w r s).2.rateLimitStore =
      (h w r (startedWorld r s)).2.rateLimitStore ∧
    (startedWorld r s).rateLimitStore = s.rateLimitStore ∧
    (startedWorld r s).clock = s.clock ∧
    (startedWorld r s).reads = s.reads + 1 ∧
    (startedWorld r s).out = s.out ++ [.logStarted r.Method r.Path] ∧
    (LoggingMiddleware h w r s).2.out =
      (h w r (startedWorld r s)).2.out ++
        [.logCompleted (saturate ((h w r (startedWorld r s)).2.clock
          (h w r (startedWorld r s)).2.reads - s.clock s.reads))] ∧
    ((∀ (s1 : World) (o : List Output),
        (h w r { s1 with out := o }).1 = (h w r s1).1 ∧
        (h w r { s1 with out := o }).2.rateLimitStore = (h w r s1).2.rateLimitStore) →
      (LoggingMiddleware h w r s).1 = (h w r { s with reads := s.reads + 1 }).1 ∧
      (LoggingMiddleware h w r s).2.rateLimitStore =
        (h w r { s with reads := s.reads + 1 }).2.rateLimitStore) ∧
    ((∀ s1 : World, s1.rateLimitStore = s.rateLimitStore →
        (h w r s1).1 = (h w r s).1 ∧
        (h w r s1).2.rateLimitStore = (h w r s).2.rateLimitStore) →
      (LoggingMiddleware h w r s).1 = (h w r s).1 ∧
      (LoggingMiddleware h w r s).2.rateLimitStore = (h w r s).2.rateLimitStore) := by
  rw [LoggingMiddleware_eq]
  refine ⟨rfl, rfl, rfl, rfl, rfl, rfl, rfl, ?_, ?_⟩
  · intro hout
    exact hout { s with reads := s.reads + 1 } (s.out ++ [.logStarted r.Method r.Path])
  · intro hstore
    exact hstore (startedWorld r s) rfl

theorem logger_transparent_witness :
    (LoggingMiddleware (AuthMiddleware (RateLimitMiddleware HelloHandler)) newResponse
      (requestOf [("X-Api-Key", ["secret123"])] "203.0.113.7:54321")
      (worldOf [("203.0.113.7", 0)] (steadyClock Second) 4)).1 =
    (AuthMiddleware (RateLimitMiddleware HelloHandler) newResponse
      (requestOf [("X-Api-Key", ["secret123"])] "203.0.113.7:54321")
      (worldOf [("203.0.113.7", 0)] (steadyClock Second) 5)).1 :=
  ((logger_transparent (AuthMiddleware (RateLimitMiddleware HelloHandler)) newResponse
    (requestOf [("X-Api-Key", ["secret123"])] "203.0.113.7:54321")
    (worldOf [("203.0.113.7", 0)] (steadyClock Second) 4)).2.2.2.2.2.2.2.1
    (chain_ignores_output newResponse
      (requestOf [("X-Api-Key", ["secret123"])] "203.0.113.7:54321"))).1

/-- C14, as stated, fails. Take the rate limiter in front of `HelloHandler` as `h`,
a client whose entry is 0, and a clock reading 4 s, 5 s, 6 s. Alone, `h` reads
4 s, answers 429 and leaves the entry at 0. Behind the logger, which takes the
reading 4 s for its start time, `h` reads 5 s, answers 200 and stores 6 s. So
`LoggingMiddleware(h)` does not give the response and the store of `h` alone
for every handler `h`. -/
theorem logger_transparent_fails_for_clock_readers :
    (RateLimitMiddleware HelloHandler newResponse (requestOf [] "203.0.113.7:54321")
      (worldOf [("203.0.113.7", 0)] (steadyClock Second) 4)).1.status = 429 ∧
    (RateLimitMiddleware HelloHandler newResponse (requestOf [] "203.0.113.7:54321")
      (worldOf [("203.0.113.7", 0)] (steadyClock Second) 4)).2.rateLimitStore "203.0.113.7" =
        some 0 ∧
    (LoggingMiddleware (RateLimitMiddleware HelloHandler) newResponse
      (requestOf [] "203.0.113.7:54321")
      (worldOf [("203.0.113.7", 0)] (steadyClock Second) 4)).1.status = 200 ∧
    (LoggingMiddleware (RateLimitMiddleware HelloHandler) newResponse
      (requestOf [] "203.0.113.7:54321")
      (worldOf [("203.0.113.7", 0)] (steadyClock Second) 4)).2.rateLimitStore "203.0.113.7" =
        some 6000000000 ∧
    ¬ (∀ (h : Handler) (w : ResponseWriter) (r : Request) (s : World),
        (LoggingMiddleware h w r s).1 = (h w r s).1 ∧
        (LoggingMiddleware h w r s).2.rateLimitStore = (h w r s).2.rateLimitStore) := by
  have h1 : (RateLimitMiddleware HelloHandler newResponse (requestOf [] "203.0.113.7:54321")
      (worldOf [("203.0.113.7", 0)] (steadyClock Second) 4)).1.status = 429 := by decide
  have h2 : (LoggingMiddleware (RateLimitMiddleware HelloHandler) newResponse
      (requestOf [] "203.0.113.7:54321")
      (worldOf [("203.0.113.7", 0)] (steadyClock Second) 4)).1.status = 200 := by decide
  refine ⟨h1, by decide, h2, by decide, ?_⟩
  intro hall
  have h3 := (hall (RateLimitMiddleware HelloHandler) newResponse
    (requestOf [] "203.0.113.7:54321") (worldOf [("203.0.113.7", 0)] (steadyClock Second) 4)).1
  rw [h3, h1] at h2
  exact absurd h2 (by decide)

/-! ## Who writes the response -/

theorem wrappedHandler_eq_limiter (w : ResponseWriter) (r : Request) (s : World)
    (hkey : r.Header.Get "X-API-Key" = "secret123") :
    (wrappedHandler w r s).1 = (RateLimitMiddleware HelloHandler w r (limiterWorld r s)).1 ∧
    (wrappedHandler w r s).2.rateLimitStore =
      (RateLimitMiddleware HelloHandler w r (limiterWorld r s)).2.rateLimitStore ∧
    (wrappedHandler w r s).2.clock =
      (RateLimitMiddleware HelloHandler w r (limiterWorld r s)).2.clock := by
  rw [wrappedHandler_eq w r s hkey]
  exact ⟨rfl, rfl, rfl⟩

theorem Fprintln_wroteHeader (w : ResponseWriter) (msg : String) :
    (Fprintln w msg).wroteHeader = true := by
  unfold Fprintln ResponseWriter.Write ResponseWriter.WriteHeader
  cases h : w.wroteHeader <;> simp [h]

theorem Stage.write_body (st : Stage) (w : ResponseWriter) :
    (st.write w).body.data = w.body.data ++
      (match st with
        | .auth => "Unauthorized\n"
        | .rateLimit => "Too many requests. Please wait.\n"
        | .hello => "Hello from HelloHandler!\n").data := by
  cases st <;>
    simp [Stage.write, httpError, Fprintln, ResponseWriter.Write, ResponseWriter.WriteHeader] <;>
    split_ifs <;> simp

theorem Stage.write_injective (w : ResponseWriter) (st1 st2 : Stage)
    (h : st1.write w = st2.write w) : st1 = st2 := by
  have hb := congrArg (fun x => x.body.data) h
  simp only [Stage.write_body] at hb
  have hb2 := List.append_cancel_left hb
  cases st1 <;> cases st2 <;> first | rfl | (exfalso; revert hb2; decide)

/-- C15. For every request and store, the response of the chain is the write of
exactly one stage on the response writer it was given: `AuthMiddleware` (401)
when the key is wrong, otherwise `RateLimitMiddleware` (429) when the client is
inside its cool-down, otherwise `HelloHandler`. The response is never left
unwritten and never carries the writes of two stages. -/
theorem exactly_one_writer (w : ResponseWriter) (r : Request) (s : World) (id : String)
    (hid : getRealIp r = some id) :
    (∃! st : Stage, (wrappedHandler w r s).1 = st.write w) ∧
    (r.Header.Get "X-API-Key" ≠ "secret123" →
      (wrappedHandler w r s).1 = Stage.auth.write w) ∧
    (r.Header.Get "X-API-Key" = "secret123" →
      InCooldown s.rateLimitStore id (s.clock (s.reads + 1)) →
      (wrappedHandler w r s).1 = Stage.rateLimit.write w) ∧
    (r.Header.Get "X-API-Key" = "secret123" →
      ¬ InCooldown s.rateLimitStore id (s.clock (s.reads + 1)) →
      (wrappedHandler w r s).1 = Stage.hello.write w) ∧
    (wrappedHandler w r s).1.wroteHeader = true ∧
    (∀ st1 st2 : Stage, (wrappedHandler w r s).1 ≠ st2.write (st1.write w)) := by
  have h1 : r.Header.Get "X-API-Key" ≠ "secret123" →
      (wrappedHandler w r s).1 = Stage.auth.write w := by
    intro hkey
    unfold wrappedHandler
    rw [LoggingMiddleware_auth_reject _ w r s hkey]
    rfl
  have h2 : r.Header.Get "X-API-Key" = "secret123" →
      InCooldown s.rateLimitStore id (s.clock (s.reads + 1)) →
      (wrappedHandler w r s).1 = Stage.rateLimit.write w := by
    intro hkey hc
    rw [(wrappedHandler_eq_limiter w r s hkey).1,
      RateLimitMiddleware_reject _ w r (limiterWorld r s) id hid hc]
    rfl
  have h3 : r.Header.Get "X-API-Key" = "secret123" →
      ¬ InCooldown s.rateLimitStore id (s.clock (s.reads + 1)) →
      (wrappedHandler w r s).1 = Stage.hello.write w := by
    intro hkey hc
    rw [(wrappedHandler_eq_limiter w r s hkey).1,
      RateLimitMiddleware_pass _ w r (limiterWorld r s) id hid hc]
    rfl
  have hex : ∃ st : Stage, (wrappedHandler w r s).1 = st.write w := by
    by_cases hkey : r.Header.Get "X-API-Key" = "secret123"
    · by_cases hc : InCooldown s.rateLimitStore id (s.clock (s.reads + 1))
      · exact ⟨_, h2 hkey hc⟩
      · exact ⟨_, h3 hkey hc⟩
    · exact ⟨_, h1 hkey⟩
  obtain ⟨st, hst⟩ := hex
  refine ⟨⟨st, hst, fun st2 h => (Stage.write_injective w _ _ (hst.symm.trans h)).symm⟩,
    h1, h2, h3, ?_, ?_⟩
  · rw [hst]
    cases st
    · exact httpError_wroteHeader _ _ _
    · exact httpError_wroteHeader _ _ _
    · exact Fprintln_wroteHeader _ _
  · intro st1 st2 h
    have hb := congrArg (fun x => x.body.data.length) (hst.symm.trans h)
    simp only [Stage.write_body, List.length_append] at hb
    cases st <;> cases st1 <;> cases st2 <;> simp at hb

theorem exactly_one_writer_witness :
    (wrappedHandler newResponse (requestOf [("X-Api-Key", ["secret123"])] "203.0.113.7:54321")
      (worldOf [("203.0.113.7", 0)] (steadyClock Second) 0)).1 =
    Stage.rateLimit.write newResponse :=
  (exactly_one_writer newResponse (requestOf [("X-Api-Key", ["secret123"])] "203.0.113.7:54321")
    (worldOf [("203.0.113.7", 0)] (steadyClock Second) 0) "203.0.113.7"
    (by decide)).2.2.1 (by decide) ⟨0, by decide, by decide⟩

/-! ## The store over a sequence of requests -/

theorem pairwise_states (h : Handler) (R : World → World → Prop) (I : World → Prop)
    (htrans : ∀ a b c, R a b → R b c → R a c)
    (hstep : ∀ r s, I s → R s (h newResponse r s).2 ∧ I (h newResponse r s).2) :
    ∀ (rs : List Request) (s : World), I s →
      List.Pairwise R (s :: (serveAll h rs s).map (fun x => x.2.2)) := by
  have hall : ∀ (rs : List Request) (s : World), I s →
      ∀ b ∈ (serveAll h rs s).map (fun x => x.2.2), R s b := by
    intro rs
    induction rs with
    | nil => intro s _ b hb; simp [serveAll] at hb
    | cons r rs ih =>
      intro s hs b hb
      simp only [serveAll, List.map_cons, List.mem_cons] at hb
      rcases hb with hb | hb
      · rw [hb]; exact (hstep r s hs).1
      · exact htrans _ _ _ (hstep r s hs).1 (ih _ (hstep r s hs).2 b hb)
  intro rs
  induction rs with
  | nil => intro s _; simp [serveAll]
  | cons r rs ih =>
    intro s hs
    refine List.Pairwise.cons (hall _ s hs) ?_
    simp only [serveAll, List.map_cons]
    exact ih _ (hstep r s hs).2

theorem attempt_keepsClients (r : Request) (s : World) :
    KeepsClients s (RateLimitMiddleware HelloHandler newResponse r s).2 := by
  obtain ⟨id, hid⟩ := getRealIp_isSome r
  intro k hk
  rcases attempt_cases r s id hid with ⟨-, he⟩ | ⟨-, he⟩
  · rw [he]; exact hk
  · rw [he]
    by_cases hkid : k = id
    · subst hkid
      show ((admittedWorld s k).rateLimitStore k).isSome = true
      rw [admittedWorld_store_self]; rfl
    · show ((admittedWorld s id).rateLimitStore k).isSome = true
      rw [admittedWorld_store_other s id k hkid]; exact hk

theorem wrappedHandler_clock (r : Request) (s : World) :
    (wrappedHandler newResponse r s).2.clock = s.clock := by
  by_cases hkey : r.Header.Get "X-API-Key" = "secret123"
  · rw [(wrappedHandler_eq_limiter newResponse r s hkey).2.2, attempt_clock]; rfl
  · unfold wrappedHandler
    rw [LoggingMiddleware_auth_reject _ _ r s hkey]

theorem wrappedHandler_keepsClients (r : Request) (s : World) :
    KeepsClients s (wrappedHandler newResponse r s).2 := by
  by_cases hkey : r.Header.Get "X-API-Key" = "secret123"
  · intro k hk
    rw [(wrappedHandler_eq_limiter newResponse r s hkey).2.1]
    exact attempt_keepsClients r (limiterWorld r s) k hk
  · intro k hk
    unfold wrappedHandler
    rw [LoggingMiddleware_auth_reject _ _ r s hkey]
    exact hk

theorem wrappedHandler_keepsStamps (r : Request) (s : World) (hmono : Monotone s.clock) :
    KeepsStamps s (wrappedHandler newResponse r s).2 := by
  by_cases hkey : r.Header.Get "X-API-Key" = "secret123"
  · intro k v hv
    rw [(wrappedHandler_eq_limiter newResponse r s hkey).2.1]
    exact attempt_store_grows r (limiterWorld r s) hmono k v hv
  · intro k v hv
    unfold wrappedHandler
    rw [LoggingMiddleware_auth_reject _ _ r s hkey]
    exact ⟨v, hv, le_refl v⟩

/-- C17. Along every sequence of requests served by the chain, no client ever
leaves the rate-limit store: a client present in one state is present in every
later state. Under a non-decreasing clock its time stamp in a later state is
never earlier. -/
theorem store_never_shrinks (rs : List Request) (s : World) :
    List.Pairwise KeepsClients (s :: (serveAll wrappedHandler rs s).map (fun x => x.2.2)) ∧
    (Monotone s.clock →
      List.Pairwise KeepsStamps (s :: (serveAll wrappedHandler rs s).map (fun x => x.2.2))) := by
  constructor
  · exact pairwise_states wrappedHandler KeepsClients (fun _ => True)
      (fun a b c hab hbc k hk => hbc k (hab k hk))
      (fun r s _ => ⟨wrappedHandler_keepsClients r s, trivial⟩) rs s trivial
  · intro hmono
    refine pairwise_states wrappedHandler KeepsStamps (fun s => Monotone s.clock)
      ?_ ?_ rs s hmono
    · intro a b c hab hbc k v hv
      obtain ⟨v1, hv1, h1⟩ := hab k v hv
      obtain ⟨v2, hv2, h2⟩ := hbc k v1 hv1
      exact ⟨v2, hv2, le_trans h1 h2⟩
    · intro r s hs
      refine ⟨wrappedHandler_keepsStamps r s hs, ?_⟩
      show Monotone (wrappedHandler newResponse r s).2.clock
      rw [wrappedHandler_clock]; exact hs

theorem store_never_shrinks_witness :
    List.Pairwise KeepsStamps
      (worldOf [("198.51.100.2", 0)] (steadyClock Second) 0 ::
        (serveAll wrappedHandler
          [requestOf [("X-Api-Key", ["secret123"])] "203.0.113.7:54321",
            requestOf [("X-Api-Key", ["secret123"])] "198.51.100.2:80"]
          (worldOf [("198.51.100.2", 0)] (steadyClock Second) 0)).map (fun x => x.2.2)) :=
  (store_never_shrinks _ (worldOf [("198.51.100.2", 0)] (steadyClock Second) 0)).2
    (steadyClock_monotone _ (by decide))

/-! ## The split critical sections -/

/-- The three atomic steps in a row are the handler of `RateLimitMiddleware`: a
request that ends `admitted` calls the next handler in the state reached, one
that ends `rejected` answers 429 in the state reached. -/
theorem limiterRun_sequential (next : Handler) (w : ResponseWriter) (r : Request) (s : World)
    (id : String) (hid : getRealIp r = some id) :
    (InCooldown s.rateLimitStore id (s.clock s.reads) →
      (limiterRun id s).1 = .rejected ∧
      RateLimitMiddleware next w r s =
        (httpError w "Too many requests. Please wait." StatusTooManyRequests,
          (limiterRun id s).2)) ∧
    (¬ InCooldown s.rateLimitStore id (s.clock s.reads) →
      (limiterRun id s).1 = .admitted ∧
      RateLimitMiddleware next w r s = next w r (limiterRun id s).2) := by
  constructor
  · intro hc
    rw [RateLimitMiddleware_reject next w r s id hid hc]
    obtain ⟨last, hlast, hlt⟩ := hc
    have hsat := (saturate_lt_window (s.clock s.reads - last)).2 hlt
    simp [limiterRun, limiterStep, World.emit, World.Since, hlast, hsat]
  · intro hc
    rw [RateLimitMiddleware_pass next w r s id hid hc]
    cases hlast : s.rateLimitStore id with
    | none =>
      simp [limiterRun, limiterStep, World.emit, World.Now, World.setLast, hlast, admittedWorld]
    | some last =>
      have hsat : ¬ (saturate (s.clock s.reads - last) < 5 * Second) :=
        fun hlt => hc ⟨last, hlast, (saturate_lt_window _).1 hlt⟩
      simp [limiterRun, limiterStep, World.emit, World.Now, World.Since, World.setLast, hlast,
        hsat, admittedWorld]

/-- C16. Two requests of the same client `id`, not inside a cool-down and with all
their clock readings less than five seconds apart, in flight at once: there is
a schedule of the atomic steps in which both read the store before either
writes it, both are admitted, and the two recorded time stamps are less than
five seconds apart. The schedule that runs the first request to completion
before the second rejects the second. -/
theorem split_lock_race (s : World) (id : String)
    (hnot : ¬ InCooldown s.rateLimitStore id (s.clock s.reads))
    (hmono : Monotone s.clock)
    (hclose : s.clock (s.reads + 3) - s.clock s.reads < 5 * Second) :
    (∃ sched : List Bool,
      (Race.run id id (sched.take 2) ⟨s, .start, .start⟩).a = .checked (s.rateLimitStore id) ∧
      (Race.run id id (sched.take 2) ⟨s, .start, .start⟩).b = .checked (s.rateLimitStore id) ∧
      (Race.run id id (sched.take 2) ⟨s, .start, .start⟩).world.rateLimitStore =
        s.rateLimitStore ∧
      (Race.run id id sched ⟨s, .start, .start⟩).a = .admitted ∧
      (Race.run id id sched ⟨s, .start, .start⟩).b = .admitted ∧
      ∃ ta tb : Int,
        (Race.run id id (sched.take 5) ⟨s, .start, .start⟩).a = .admitted ∧
        (Race.run id id (sched.take 5) ⟨s, .start, .start⟩).b = .passed ∧
        (Race.run id id (sched.take 5) ⟨s, .start, .start⟩).world.rateLimitStore id = some ta ∧
        (Race.run id id sched ⟨s, .start, .start⟩).world.rateLimitStore id = some tb ∧
        ta ≤ tb ∧ tb - ta < 5 * Second) ∧
    (Race.run id id [false, false, false, true, true, true] ⟨s, .start, .start⟩).a = .admitted ∧
    (Race.run id id [false, false, false, true, true, true] ⟨s, .start, .start⟩).b = .rejected := by
  have h01 : s.clock s.reads ≤ s.clock (s.reads + 1) := hmono (by omega)
  have h12 : s.clock (s.reads + 1) ≤ s.clock (s.reads + 2) := hmono (by omega)
  have h23 : s.clock (s.reads + 2) ≤ s.clock (s.reads + 3) := hmono (by omega)
  cases hlast : s.rateLimitStore id with
  | none =>
    refine ⟨⟨[false, true, false, true, false, true], ?_⟩, ?_, ?_⟩
    · simp [Race.run, Race.step, limiterStep, World.emit, World.Now, World.setLast, hlast]
      unfold Second at hclose ⊢
      omega
    · simp [Race.run, Race.step, limiterStep, World.emit, World.Now, World.setLast, hlast]
    · have hsat : saturate (s.clock (s.reads + 1) - s.clock s.reads) < 5 * Second := by
        rw [saturate_lt_window]; unfold Second at hclose ⊢; omega
      simp [Race.run, Race.step, limiterStep, World.emit, World.Now, World.Since, World.setLast,
        hlast, hsat]
  | some last =>
    have hge : ¬ (s.clock s.reads - last < 5 * Second) := fun hlt => hnot ⟨last, hlast, hlt⟩
    have hsat0 : ¬ (saturate (s.clock s.reads - last) < 5 * Second) := by
      rw [saturate_lt_window]; exact hge
    have hsat1 : ¬ (saturate (s.clock (s.reads + 1) - last) < 5 * Second) := by
      rw [saturate_lt_window]; unfold Second at hge ⊢; omega
    refine ⟨⟨[false, true, false, true, false, true], ?_⟩, ?_, ?_⟩
    · simp [Race.run, Race.step, limiterStep, World.emit, World.Now, World.Since, World.setLast,
        hlast, hsat0, hsat1]
      rw [show s.reads + 1 + 1 + 1 = s.reads + 3 from rfl,
        show s.reads + 1 + 1 = s.reads + 2 from rfl]
      unfold Second at hclose ⊢
      omega
    · simp [Race.run, Race.step, limiterStep, World.emit, World.Now, World.Since, World.setLast,
        hlast, hsat0]
    · have hsat : saturate (s.clock (s.reads + 2) - s.clock (s.reads + 1)) < 5 * Second := by
        rw [saturate_lt_window]; unfold Second at hclose ⊢; omega
      simp [Race.run, Race.step, limiterStep, World.emit, World.Now, World.Since, World.setLast,
        hlast, hsat0, hsat]

theorem split_lock_race_witness :
    (Race.run "203.0.113.7" "203.0.113.7" [false, false, false, true, true, true]
      ⟨worldOf [] (steadyClock Second) 0, .start, .start⟩).b = .rejected ∧
    ∃ sched : List Bool,
      (Race.run "203.0.113.7" "203.0.113.7" sched
        ⟨worldOf [] (steadyClock Second) 0, .start, .start⟩).a = .admitted ∧
      (Race.run "203.0.113.7" "203.0.113.7" sched
        ⟨worldOf [] (steadyClock Second) 0, .start, .start⟩).b = .admitted := by
  obtain ⟨⟨sched, -, -, -, ha, hb, -⟩, -, hser⟩ :=
    split_lock_race (worldOf [] (steadyClock Second) 0) "203.0.113.7"
      (by rintro ⟨last, hlast, -⟩; cases hlast) (steadyClock_monotone _ (by decide))
      (by decide)
  exact ⟨hser, sched, ha, hb⟩

end GoMiddleware
